import Mathlib

/-!
A shallow embedding of the core of the dtn7-go DTN node (bundle codec,
fragmentation, bundle store, forwarding pipeline, CLA manager, sequence-id
keeper), together with theorems settling the specification claims.

Go values are modelled as follows: byte slices and strings are lists of
naturals (each byte below 256), unsigned 64-bit integers are naturals
(with explicit wrap-around where Go overflow semantics matter), `error`
results are `Option`/`Except` values, and time instants are naturals
counting milliseconds since the DTN epoch 2000-01-01 (so `time.Now()`
becomes an explicit `now` parameter).
-/

namespace Dtn7

/-- Go byte slices and strings: lists of naturals (each below 256). -/
abbrev Bytes := List Nat

/-! ## Bundle processing control flags (RFC 9171 section 4.2.3)

The flag constants live in a bpv7 source file that only has callers in the
tree; the numeric values are the RFC 9171 bit assignments. -/

def IsFragment : Nat := 1
def AdministrativeRecordPayload : Nat := 2
def MustNotFragmented : Nat := 4
def RequestStatusTime : Nat := 64

/-! Block processing control flags (RFC 9171 section 4.2.4). -/

def ReplicateBlock : Nat := 1
def StatusReportBlock : Nat := 2

/-- `flags.Has(flag)`: bitwise test, as in the Go flag types. -/
def hasFlag (flags flag : Nat) : Bool := flags &&& flag != 0

/-- Go `flags | flag`. -/
def setFlag (flags flag : Nat) : Nat := flags ||| flag

/-- Go `flags &^ flag` (AND NOT), restricted to 64-bit values. -/
def clearFlag (flags flag : Nat) : Nat := flags &&& ((2 ^ 64 - 1) ^^^ flag)

/-! ## CRC types (RFC 9171) -/

def NoCRC : Nat := 0
def CRC16 : Nat := 1
def CRC32 : Nat := 2

/-! ## Block type codes (RFC 9171) -/

def BlockTypePayloadBlock : Nat := 1
def BlockTypePreviousNodeBlock : Nat := 6
def BlockTypeBundleAgeBlock : Nat := 7
def BlockTypeHopCountBlock : Nat := 10

/-! ## Endpoint IDs

`DtnEndpoint` is translated from the dtn scheme source file in the tree.
The spec recognises exactly the dtn scheme (normal and null endpoints), so
`EndpointID` is a wrapper around `DtnEndpoint`. -/

structure DtnEndpoint where
  nodeName : Bytes
  demux : Bytes
  isDtnNone : Bool
deriving DecidableEq, Repr

abbrev EndpointID := DtnEndpoint

/-- Byte 47 is the slash separating node name and demux. -/
def slashByte : Nat := 47

/-- The byte class of the node-name part of the dtn SSP regular expression
from the source: word characters (letters, digits, underscore) plus
the punctuation listed in the character class. -/
def sspAllowedByte (b : Nat) : Bool :=
  (48 ≤ b && b ≤ 57) || (65 ≤ b && b ≤ 90) || (97 ≤ b && b ≤ 122) ||
    (b == 95) || (b == 45) || (b == 46) || (b == 126) || (b == 33) ||
    (b == 36) || (b == 38) || (b == 39) || (b == 40) || (b == 41) ||
    (b == 42) || (b == 43) || (b == 44) || (b == 59) || (b == 61)

/-- The bytes of the string "none". -/
def noneBytes : Bytes := [110, 111, 110, 101]

/-- `parseDtnSsp` from the source: either the SSP is exactly "none", or it
matches `//<node>/<demux>` where the node name is one or more bytes of the
allowed class (the regular expression's empty alternative is unreachable
because of its inner anchors); the node is then the part up to the first
slash and the demux the rest.  Returns `(nodeName, demux, isDtnNone)`. -/
def neSlash (b : Nat) : Bool := b != slashByte

def parseDtnSsp (ssp : Bytes) : Option (Bytes × Bytes × Bool) :=
  if ssp = noneBytes then some ([], [], true)
  else
    match ssp with
    | b0 :: b1 :: rest =>
      if b0 = slashByte ∧ b1 = slashByte then
        let node := rest.takeWhile neSlash
        let rest2 := rest.dropWhile neSlash
        match rest2 with
        | b2 :: demux =>
          if b2 = slashByte ∧ node ≠ [] ∧ node.all sspAllowedByte then
            some (node, demux, false)
          else none
        | _ => none
      else none
    | _ => none

/-- The SSP of a non-null dtn endpoint: `//<node>/<demux>`. -/
def DtnEndpoint.sspOf (e : DtnEndpoint) : Bytes :=
  47 :: 47 :: e.nodeName ++ 47 :: e.demux

/-- A well-formed endpoint value: the null endpoint carries empty name
fields (the Go zero values), a normal endpoint has a nonempty node name
drawn from the allowed byte class (so it contains no slash), and all bytes
are really bytes. -/
def endpointWF (e : EndpointID) : Prop :=
  if e.isDtnNone then e.nodeName = [] ∧ e.demux = []
  else e.nodeName ≠ [] ∧ e.nodeName.all sspAllowedByte = true ∧
    e.demux.all (fun b => b < 256) = true ∧ e.sspOf.length < 2 ^ 64

instance (e : EndpointID) : Decidable (endpointWF e) := by
  unfold endpointWF; infer_instance

/-! ## Bundle data model (types from the bpv7 package) -/

/-- Creation timestamp: `(dtn-time in milliseconds, sequence number)`. -/
structure CreationTimestamp where
  dtnTime : Nat
  seqNo : Nat
deriving DecidableEq, Repr

def CreationTimestamp.isZeroTime (ts : CreationTimestamp) : Bool :=
  ts.dtnTime == 0 && ts.seqNo == 0

/-- The polymorphic extension-block value: payload, previous-node,
bundle-age and hop-count are the known types; unknown type codes retain
their value bytes verbatim. -/
inductive BlockValue where
  | payload (data : Bytes)
  | previousNode (eid : EndpointID)
  | bundleAge (age : Nat)
  | hopCount (limit count : Nat)
  | unknown (typeCode : Nat) (data : Bytes)
deriving DecidableEq, Repr

/-- `Value.BlockTypeCode()`. -/
def BlockValue.blockTypeCode : BlockValue → Nat
  | .payload _ => BlockTypePayloadBlock
  | .previousNode _ => BlockTypePreviousNodeBlock
  | .bundleAge _ => BlockTypeBundleAgeBlock
  | .hopCount _ _ => BlockTypeHopCountBlock
  | .unknown t _ => t

/-- Canonical block: block number, block control flags, CRC type and the
type-specific value.  The CRC value itself is computed during
serialization (and checked during deserialization), as the spec
describes, so it is not part of the in-memory record. -/
structure CanonicalBlock where
  blockNumber : Nat
  blockControlFlags : Nat
  crcType : Nat
  value : BlockValue
deriving DecidableEq, Repr

/-- `cb.TypeCode()`. -/
def CanonicalBlock.typeCode (cb : CanonicalBlock) : Nat :=
  cb.value.blockTypeCode

/-- `NewCanonicalBlock(no, bcf, value)`. -/
def NewCanonicalBlock (no bcf : Nat) (value : BlockValue) : CanonicalBlock :=
  { blockNumber := no, blockControlFlags := bcf, crcType := NoCRC, value := value }

/-- `cb.SetCRCType(t)`. -/
def CanonicalBlock.setCRCType (cb : CanonicalBlock) (t : Nat) : CanonicalBlock :=
  { cb with crcType := t }

/-- Primary block in RFC 9171 field order.  The `crc` field is the stored
CRC bytes (Go `[]byte`, empty list for nil). -/
structure PrimaryBlock where
  version : Nat
  bundleControlFlags : Nat
  crcType : Nat
  destination : EndpointID
  sourceNode : EndpointID
  reportTo : EndpointID
  creationTimestamp : CreationTimestamp
  lifetime : Nat
  fragmentOffset : Nat
  totalDataLength : Nat
  crc : Bytes
deriving DecidableEq, Repr

/-- Bundle: primary block, ordered extension blocks, payload block. -/
structure Bundle where
  primaryBlock : PrimaryBlock
  extensionBlocks : List CanonicalBlock
  payloadBlock : CanonicalBlock
deriving DecidableEq, Repr

/-- Bundle ID `(source, timestamp, is-fragment, offset, total length)`. -/
structure BundleID where
  sourceNode : EndpointID
  timestamp : CreationTimestamp
  isFragment : Bool
  fragmentOffset : Nat
  totalDataLength : Nat
deriving DecidableEq, Repr

/-- `b.ID()` from the source. -/
def Bundle.id (b : Bundle) : BundleID :=
  { sourceNode := b.primaryBlock.sourceNode
    timestamp := b.primaryBlock.creationTimestamp
    isFragment := hasFlag b.primaryBlock.bundleControlFlags IsFragment
    fragmentOffset := b.primaryBlock.fragmentOffset
    totalDataLength := b.primaryBlock.totalDataLength }

/-! ## Store: retention constraints and bundle descriptors

Translated from the store package sources.  `Constraint` is an integer
type in Go (`type Constraint int`), with the three iota constants. -/

abbrev Constraint := Int

def DispatchPending : Constraint := 0
def ForwardPending : Constraint := 1
def ReassemblyPending : Constraint := 2

/-- `Constraint.Valid()`. -/
def constraintValid (c : Constraint) : Bool :=
  DispatchPending ≤ c && c ≤ ReassemblyPending

/-- The bundle descriptor (store metadata record).  `idString`, the
database primary key, is the string form of the bundle ID; the rendering
function lives outside the tree and the spec states the string form is
the key, so the key is modelled by the `BundleID` value itself.  The
`serialisedFileName` (hex SHA-256 of the ID string, injective per spec) is
modelled the same way.  `expires` is an absolute DTN time in ms. -/
structure BundleDescriptor where
  id : BundleID
  source : EndpointID
  destination : EndpointID
  reportTo : EndpointID
  bundle : Option Bundle
  alreadySentTo : List EndpointID
  retentionConstraints : List Constraint
  idString : BundleID
  retain : Bool
  dispatch : Bool
  expires : Nat
  serialisedFileName : BundleID
deriving DecidableEq, Repr

/-- `BundleDescriptor.AddConstraint`, the in-memory part (the store sync
is modelled separately; it cannot change the descriptor fields).  The Go
method first rejects values outside the valid constraint range and
otherwise appends the constraint, sets `Retain` to true and sets
`Dispatch` to `constraint != ForwardPending`.  Returns an error exactly
when the constraint is invalid. -/
def BundleDescriptor.addConstraint (bd : BundleDescriptor) (c : Constraint) :
    Except Constraint BundleDescriptor :=
  if c < DispatchPending ∨ c > ReassemblyPending then .error c
  else .ok { bd with
    retentionConstraints := bd.retentionConstraints ++ [c]
    retain := true
    dispatch := c != ForwardPending }

/-- `BundleDescriptor.RemoveConstraint`: filters out every occurrence of
the constraint, sets `Retain` to whether constraints remain and sets
`Dispatch` to `constraint == ForwardPending`. -/
def BundleDescriptor.removeConstraint (bd : BundleDescriptor) (c : Constraint) :
    BundleDescriptor :=
  let constraints := bd.retentionConstraints.filter (fun ec => ec ≠ c)
  { bd with
    retentionConstraints := constraints
    retain := constraints.length > 0
    dispatch := c == ForwardPending }

/-- `BundleDescriptor.ResetConstraints`: empties the constraint list,
sets `Retain` to false and `Dispatch` to true. -/
def BundleDescriptor.resetConstraints (bd : BundleDescriptor) : BundleDescriptor :=
  { bd with
    retentionConstraints := []
    retain := false
    dispatch := true }

/-! ### The constraint-operation state machine used by claim C1 -/

/-- One metadata operation on a descriptor. -/
inductive ConstraintOp where
  | add (c : Constraint)
  | remove (c : Constraint)
  | reset
deriving DecidableEq, Repr

/-- Apply one operation.  A failing `AddConstraint` (invalid constraint
value) leaves the descriptor unchanged, exactly as the Go method returns
before mutating anything. -/
def applyConstraintOp (bd : BundleDescriptor) : ConstraintOp → BundleDescriptor
  | .add c =>
    match bd.addConstraint c with
    | .ok bd2 => bd2
    | .error _ => bd
  | .remove c => bd.removeConstraint c
  | .reset => bd.resetConstraints

/-- Apply a sequence of operations, first to last. -/
def applyConstraintOps (bd : BundleDescriptor) (ops : List ConstraintOp) : BundleDescriptor :=
  ops.foldl applyConstraintOp bd

/-- The `Dispatch` value the Go code computes for one operation, given the
previous value (a failing `AddConstraint` leaves it unchanged). -/
def dispatchAfterOp (prev : Bool) : ConstraintOp → Bool
  | .add c => if c < DispatchPending ∨ c > ReassemblyPending then prev else c != ForwardPending
  | .remove c => c == ForwardPending
  | .reset => true

/-! ## CBOR primitives

The bundle codec streams CBOR.  A head is one initial byte (3-bit major
type, 5-bit additional information) followed by 0, 1, 2, 4 or 8 big-endian
argument bytes; the encoder always emits the minimal-length head. -/

/-- Big-endian bytes of `n`, exactly `k` bytes wide. -/
def beBytes : Nat → Nat → Bytes
  | 0, _ => []
  | k + 1, n => beBytes k (n / 256) ++ [n % 256]

/-- Value of big-endian bytes. -/
def beVal (l : Bytes) : Nat := l.foldl (fun acc b => acc * 256 + b) 0

/-- Split off exactly `k` bytes, failing if fewer are available. -/
def takeExact (k : Nat) (l : Bytes) : Option (Bytes × Bytes) :=
  if k ≤ l.length then some (l.take k, l.drop k) else none

/-- A CBOR head for major type `major` and argument `n` (minimal form). -/
def cborHead (major n : Nat) : Bytes :=
  if n < 24 then [major * 32 + n]
  else if n < 256 then (major * 32 + 24) :: beBytes 1 n
  else if n < 65536 then (major * 32 + 25) :: beBytes 2 n
  else if n < 4294967296 then (major * 32 + 26) :: beBytes 4 n
  else (major * 32 + 27) :: beBytes 8 n

/-- Parse a CBOR head: `(major, argument, rest)`. -/
def parseHead : Bytes → Option (Nat × Nat × Bytes)
  | [] => none
  | b :: rest =>
    let major := b / 32
    let ai := b % 32
    if ai < 24 then some (major, ai, rest)
    else if ai = 24 then (takeExact 1 rest).map fun p => (major, beVal p.1, p.2)
    else if ai = 25 then (takeExact 2 rest).map fun p => (major, beVal p.1, p.2)
    else if ai = 26 then (takeExact 4 rest).map fun p => (major, beVal p.1, p.2)
    else if ai = 27 then (takeExact 8 rest).map fun p => (major, beVal p.1, p.2)
    else none

/-- `cboring.IndefiniteArray`, the initial byte of an indefinite array. -/
def IndefiniteArray : Nat := 159

/-- `cboring.BreakCode`. -/
def BreakCode : Nat := 255

/-! ## CRC

CRC16 is CCITT-FALSE, CRC32 is Castagnoli, as the spec prescribes; both
are implemented bitwise.  The CRC of a block is computed over the block
serialization with the CRC field holding all-zero bytes. -/

def crc16Step (crc byte : Nat) : Nat :=
  (List.range 8).foldl
    (fun c _ => if c &&& 32768 ≠ 0 then ((c * 2) ^^^ 4129) &&& 65535 else (c * 2) &&& 65535)
    (crc ^^^ (byte % 256 * 256))

/-- CRC16/CCITT-FALSE of a byte sequence. -/
def crc16 (data : Bytes) : Nat := data.foldl crc16Step 65535

def crc32cStep (crc byte : Nat) : Nat :=
  (List.range 8).foldl
    (fun c _ => if c &&& 1 = 1 then (c / 2) ^^^ 2197175160 else c / 2)
    (crc ^^^ byte % 256)

/-- CRC32/Castagnoli of a byte sequence. -/
def crc32c (data : Bytes) : Nat := (data.foldl crc32cStep 4294967295) ^^^ 4294967295

/-- Width in bytes of the CRC value for a CRC type. -/
def crcLength (t : Nat) : Nat :=
  if t = CRC16 then 2 else if t = CRC32 then 4 else 0

/-- The CRC bytes of the given CRC type over `data`. -/
def crcCompute (t : Nat) (data : Bytes) : Bytes :=
  if t = CRC16 then beBytes 2 (crc16 data)
  else if t = CRC32 then beBytes 4 (crc32c data)
  else []

/-! ## Endpoint, timestamp and block codecs

Modelled from the spec: endpoint IDs are encoded as a two-element CBOR
array `[scheme-number, ssp]` with scheme number 1 for dtn, the ssp being
either the unsigned integer 0 (null endpoint) or the text string
`//<node>/<demux>`; the ssp parser is translated from the dtn endpoint
source file in the tree. -/

def marshalEndpoint (e : EndpointID) : Bytes :=
  cborHead 4 2 ++ cborHead 0 1 ++
    (if e.isDtnNone then cborHead 0 0 else cborHead 3 e.sspOf.length ++ e.sspOf)

def parseEndpoint (bs : Bytes) : Option (EndpointID × Bytes) :=
  match parseHead bs with
  | none => none
  | some (m1, n1, r1) =>
    if m1 = 4 ∧ n1 = 2 then
      match parseHead r1 with
      | none => none
      | some (m2, n2, r2) =>
        if m2 = 0 ∧ n2 = 1 then
          match parseHead r2 with
          | none => none
          | some (m3, n3, r3) =>
            if m3 = 0 then some ({ nodeName := [], demux := [], isDtnNone := true }, r3)
            else if m3 = 3 then
              match takeExact n3 r3 with
              | none => none
              | some (ssp, r4) =>
                match parseDtnSsp ssp with
                | none => none
                | some (node, demux, isNone) =>
                  if isNone then none
                  else some ({ nodeName := node, demux := demux, isDtnNone := false }, r4)
            else none
        else none
    else none

/-- Modelled from the spec: a creation timestamp is the pair
`(dtn-time, sequence-number)`, a two-element CBOR array of uints. -/
def marshalTimestamp (ts : CreationTimestamp) : Bytes :=
  cborHead 4 2 ++ cborHead 0 ts.dtnTime ++ cborHead 0 ts.seqNo

def parseTimestamp (bs : Bytes) : Option (CreationTimestamp × Bytes) :=
  match parseHead bs with
  | none => none
  | some (m1, n1, r1) =>
    if m1 = 4 ∧ n1 = 2 then
      match parseHead r1 with
      | none => none
      | some (m2, t, r2) =>
        if m2 = 0 then
          match parseHead r2 with
          | none => none
          | some (m3, s, r3) =>
            if m3 = 0 then some ({ dtnTime := t, seqNo := s }, r3) else none
        else none
    else none

/-! ### Primary block codec

Modelled from the spec: the primary block is a fixed-length CBOR array
with items in RFC 9171 order — version, control flags, CRC type,
destination, source, report-to, creation timestamp, lifetime, then (for
fragments) offset and total data length, then (if a CRC type is set) the
CRC bytes; the CRC is computed over the serialization with the CRC field
all-zero, then substituted. -/

def primaryItemCount (pb : PrimaryBlock) : Nat :=
  8 + (if hasFlag pb.bundleControlFlags IsFragment then 2 else 0) +
    (if pb.crcType ≠ NoCRC then 1 else 0)

def primaryBody (pb : PrimaryBlock) (crcBytes : Bytes) : Bytes :=
  cborHead 4 (primaryItemCount pb) ++
    cborHead 0 pb.version ++
    cborHead 0 pb.bundleControlFlags ++
    cborHead 0 pb.crcType ++
    marshalEndpoint pb.destination ++
    marshalEndpoint pb.sourceNode ++
    marshalEndpoint pb.reportTo ++
    marshalTimestamp pb.creationTimestamp ++
    cborHead 0 pb.lifetime ++
    (if hasFlag pb.bundleControlFlags IsFragment then
      cborHead 0 pb.fragmentOffset ++ cborHead 0 pb.totalDataLength
    else []) ++
    (if pb.crcType ≠ NoCRC then cborHead 2 crcBytes.length ++ crcBytes else [])

/-- The CRC bytes a primary block serialization carries. -/
def primaryCrcBytes (pb : PrimaryBlock) : Bytes :=
  crcCompute pb.crcType (primaryBody pb (List.replicate (crcLength pb.crcType) 0))

def marshalPrimaryBlock (pb : PrimaryBlock) : Bytes :=
  if pb.crcType = NoCRC then primaryBody pb [] else primaryBody pb (primaryCrcBytes pb)

/-- The tail of the primary-block parser once all numbered fields are in
hand: the array-length check, then the optional CRC byte string, whose
value must equal the CRC recomputed over the serialization with a zeroed
CRC field. -/
def parsePrimaryAfterFrag (cnt version flags crcType : Nat) (dest src rpt : EndpointID)
    (ts : CreationTimestamp) (lifetime off tdl : Nat) (r10 : Bytes) :
    Option (PrimaryBlock × Bytes) :=
  let pb : PrimaryBlock :=
    { version := version, bundleControlFlags := flags, crcType := crcType
      destination := dest, sourceNode := src, reportTo := rpt
      creationTimestamp := ts, lifetime := lifetime
      fragmentOffset := off, totalDataLength := tdl, crc := [] }
  if cnt ≠ primaryItemCount pb then none
  else if crcType = NoCRC then some (pb, r10)
  else
    match parseHead r10 with
    | none => none
    | some (mb, n, r11) =>
      if mb = 2 then
        match takeExact n r11 with
        | none => none
        | some (cbytes, r12) =>
          if cbytes = primaryCrcBytes pb then some ({ pb with crc := cbytes }, r12)
          else none
      else none

/-- The fragment fields of the primary block: present exactly when the
`IsFragment` flag is set, otherwise the Go zero values remain. -/
def parsePrimaryTail (cnt version flags crcType : Nat) (dest src rpt : EndpointID)
    (ts : CreationTimestamp) (lifetime : Nat) (r8 : Bytes) : Option (PrimaryBlock × Bytes) :=
  if hasFlag flags IsFragment then
    match parseHead r8 with
    | none => none
    | some (mo, off, r9) =>
      if mo = 0 then
        match parseHead r9 with
        | none => none
        | some (mt, tdl, r10) =>
          if mt = 0 then
            parsePrimaryAfterFrag cnt version flags crcType dest src rpt ts lifetime off tdl r10
          else none
      else none
  else parsePrimaryAfterFrag cnt version flags crcType dest src rpt ts lifetime 0 0 r8

def parsePrimaryBlock (bs : Bytes) : Option (PrimaryBlock × Bytes) :=
  match parseHead bs with
  | none => none
  | some (m0, cnt, r0) =>
    if m0 = 4 then
      match parseHead r0 with
      | none => none
      | some (mv, version, r1) =>
        if mv = 0 then
          match parseHead r1 with
          | none => none
          | some (mf, flags, r2) =>
            if mf = 0 then
              match parseHead r2 with
              | none => none
              | some (mc, crcType, r3) =>
                if mc = 0 then
                  match parseEndpoint r3 with
                  | none => none
                  | some (dest, r4) =>
                    match parseEndpoint r4 with
                    | none => none
                    | some (src, r5) =>
                      match parseEndpoint r5 with
                      | none => none
                      | some (rpt, r6) =>
                        match parseTimestamp r6 with
                        | none => none
                        | some (ts, r7) =>
                          match parseHead r7 with
                          | none => none
                          | some (ml, lifetime, r8) =>
                            if ml = 0 then
                              parsePrimaryTail cnt version flags crcType dest src rpt ts
                                lifetime r8
                            else none
                else none
            else none
        else none
    else none

/-! ### Canonical block codec

Modelled from the spec: each canonical block is a CBOR array of 5 or 6
items — type code, block number, block control flags, CRC type, the
type-specific value as a byte string, and optionally the CRC bytes.
Unknown extension-block type codes retain their value bytes verbatim. -/

def valueBytes : BlockValue → Bytes
  | .payload d => d
  | .previousNode e => marshalEndpoint e
  | .bundleAge n => cborHead 0 n
  | .hopCount l c => cborHead 4 2 ++ cborHead 0 l ++ cborHead 0 c
  | .unknown _ d => d

/-- The registry from type code to value decoder. -/
def decodeValue (t : Nat) (bs : Bytes) : Option BlockValue :=
  if t = BlockTypePayloadBlock then some (.payload bs)
  else if t = BlockTypePreviousNodeBlock then
    match parseEndpoint bs with
    | none => none
    | some (e, rest) => if rest = [] then some (.previousNode e) else none
  else if t = BlockTypeBundleAgeBlock then
    match parseHead bs with
    | none => none
    | some (m, n, rest) => if m = 0 ∧ rest = [] then some (.bundleAge n) else none
  else if t = BlockTypeHopCountBlock then
    match parseHead bs with
    | none => none
    | some (m1, n1, r1) =>
      if m1 = 4 ∧ n1 = 2 then
        match parseHead r1 with
        | none => none
        | some (m2, l, r2) =>
          if m2 = 0 then
            match parseHead r2 with
            | none => none
            | some (m3, c, r3) =>
              if m3 = 0 ∧ r3 = [] then some (.hopCount l c) else none
          else none
      else none
  else some (.unknown t bs)

def canonicalBody (cb : CanonicalBlock) (crcBytes : Bytes) : Bytes :=
  cborHead 4 (if cb.crcType ≠ NoCRC then 6 else 5) ++
    cborHead 0 cb.typeCode ++
    cborHead 0 cb.blockNumber ++
    cborHead 0 cb.blockControlFlags ++
    cborHead 0 cb.crcType ++
    cborHead 2 (valueBytes cb.value).length ++ valueBytes cb.value ++
    (if cb.crcType ≠ NoCRC then cborHead 2 crcBytes.length ++ crcBytes else [])

/-- The CRC bytes a canonical block serialization carries. -/
def canonicalCrcBytes (cb : CanonicalBlock) : Bytes :=
  crcCompute cb.crcType (canonicalBody cb (List.replicate (crcLength cb.crcType) 0))

def marshalCanonicalBlock (cb : CanonicalBlock) : Bytes :=
  if cb.crcType = NoCRC then canonicalBody cb [] else canonicalBody cb (canonicalCrcBytes cb)

/-- The tail of the canonical-block parser: the 5-versus-6 item check
against the CRC type and the CRC verification. -/
def parseCanonicalTail (cnt num flags crcType : Nat) (v : BlockValue) (r6 : Bytes) :
    Option (CanonicalBlock × Bytes) :=
  let cb : CanonicalBlock :=
    { blockNumber := num, blockControlFlags := flags, crcType := crcType, value := v }
  if crcType = NoCRC then
    if cnt = 5 then some (cb, r6) else none
  else if cnt = 6 then
    match parseHead r6 with
    | none => none
    | some (mb, m, r7) =>
      if mb = 2 then
        match takeExact m r7 with
        | none => none
        | some (cbytes, r8) =>
          if cbytes = canonicalCrcBytes cb then some (cb, r8) else none
      else none
  else none

def parseCanonicalBlock (bs : Bytes) : Option (CanonicalBlock × Bytes) :=
  match parseHead bs with
  | none => none
  | some (m0, cnt, r0) =>
    if m0 = 4 then
      if cnt ≠ 5 ∧ cnt ≠ 6 then none
      else
        match parseHead r0 with
        | none => none
        | some (mt, typeCode, r1) =>
          if mt = 0 then
            match parseHead r1 with
            | none => none
            | some (mn, num, r2) =>
              if mn = 0 then
                match parseHead r2 with
                | none => none
                | some (mf, flags, r3) =>
                  if mf = 0 then
                    match parseHead r3 with
                    | none => none
                    | some (mc, crcType, r4) =>
                      if mc = 0 then
                        match parseHead r4 with
                        | none => none
                        | some (mv, n, r5) =>
                          if mv = 2 then
                            match takeExact n r5 with
                            | none => none
                            | some (vb, r6) =>
                              match decodeValue typeCode vb with
                              | none => none
                              | some v => parseCanonicalTail cnt num flags crcType v r6
                          else none
                      else none
                  else none
              else none
          else none
    else none

/-! ## Bundle codec (translated from the bundle source file)

`MarshalCbor`: write the indefinite-array byte, the primary block, each
extension block in list order, the payload block, then the break code.
`UnmarshalCbor`: expect the indefinite-array byte, read the primary
block, then canonical blocks until the break code, sending the block
typed as payload into the payload-block slot and appending all others to
the extension list; finally run `CheckValid`. -/

def marshalBundle (b : Bundle) : Bytes :=
  IndefiniteArray ::
    marshalPrimaryBlock b.primaryBlock ++
    (b.extensionBlocks.map marshalCanonicalBlock).flatten ++
    marshalCanonicalBlock b.payloadBlock ++
    [BreakCode]

/-- The zero value of a canonical block (Go `CanonicalBlock{}`): the
payload-block slot before the loop assigns it. -/
def zeroCanonicalBlock : CanonicalBlock :=
  { blockNumber := 0, blockControlFlags := 0, crcType := 0, value := .unknown 0 [] }

/-! ## Bundle operations (translated from the bundle source file) -/

/-- Ordering of canonical blocks by block number, used by
`sortExtensionBlocks` (the spec: extension blocks are ordered by block
number). -/
def blockNumberLE (a b : CanonicalBlock) : Prop := a.blockNumber ≤ b.blockNumber

instance : DecidableRel blockNumberLE := fun a b => by
  unfold blockNumberLE; infer_instance

instance : IsTotal CanonicalBlock blockNumberLE :=
  ⟨fun a b => Nat.le_total a.blockNumber b.blockNumber⟩

instance : IsTrans CanonicalBlock blockNumberLE :=
  ⟨fun _ _ _ h h2 => Nat.le_trans h h2⟩

/-- `b.sortExtensionBlocks()`.  The Go sort is by block number; all uses
in the claims sort lists with pairwise distinct numbers, where every
correct sort gives the same result. -/
def Bundle.sortExtensionBlocks (b : Bundle) : Bundle :=
  { b with extensionBlocks := b.extensionBlocks.insertionSort blockNumberLE }

/-- The busy loop of `AddExtensionBlock` searching the first free block
number at or above `start`.  The Go loop runs until it finds a free
number; the fuel `used.length + 1` always suffices (pigeonhole), so the
fuel-exhaustion branch is unreachable. -/
def findFreeNumber (used : List Nat) : Nat → Nat → Nat
  | start, 0 => start
  | start, fuel + 1 => if start ∈ used then findFreeNumber used (start + 1) fuel else start

/-- `b.AddExtensionBlock(block)`: overwrite the block number with the
first free number (starting from 2, or from 1 for payload-typed blocks),
append and re-sort.  The Go method always returns nil. -/
def addExtensionBlock (b : Bundle) (block : CanonicalBlock) : Bundle :=
  let used := b.extensionBlocks.map (fun cb => cb.blockNumber)
  let start := if block.typeCode ≠ BlockTypePayloadBlock then 2 else 1
  let n := findFreeNumber used start (used.length + 1)
  Bundle.sortExtensionBlocks
    { b with extensionBlocks := b.extensionBlocks ++ [{ block with blockNumber := n }] }

/-- `b.ExtensionBlocksByType(t)` (the returned list; the Go error stands
for an empty result). -/
def extensionBlocksByType (b : Bundle) (t : Nat) : List CanonicalBlock :=
  b.extensionBlocks.filter (fun cb => cb.typeCode = t)

/-- `b.ExtensionBlockByType(t)`: exactly one block of the type, else an
error (`none`). -/
def extensionBlockByType (b : Bundle) (t : Nat) : Option CanonicalBlock :=
  match extensionBlocksByType b t with
  | [cb] => some cb
  | _ => none

/-- `b.HasExtensionBlock(t)`. -/
def hasExtensionBlock (b : Bundle) (t : Nat) : Bool :=
  !(extensionBlocksByType b t).isEmpty

/-- `b.RemoveExtensionBlockByBlockNumber(n)`: removes the first block
with the given number, if any. -/
def removeFirstByNumber : List CanonicalBlock → Nat → List CanonicalBlock
  | [], _ => []
  | cb :: rest, n => if cb.blockNumber = n then rest else cb :: removeFirstByNumber rest n

def removeExtensionBlockByBlockNumber (b : Bundle) (n : Nat) : Bundle :=
  { b with extensionBlocks := removeFirstByNumber b.extensionBlocks n }

/-- The age carried by a bundle-age block value.  The Go code reaches
this through a type assertion that only well-formed bundles satisfy. -/
def bundleAgeValue : BlockValue → Nat
  | .bundleAge n => n
  | _ => 0

/-- `b.IsLifetimeExceeded()`, with `time.Now()` made explicit (`now` in
DTN milliseconds). -/
def isLifetimeExceeded (now : Nat) (b : Bundle) : Bool :=
  if b.primaryBlock.creationTimestamp.isZeroTime then
    match extensionBlockByType b BlockTypeBundleAgeBlock with
    | none => true
    | some bab => bundleAgeValue bab.value > b.primaryBlock.lifetime
  else
    now > b.primaryBlock.creationTimestamp.dtnTime + b.primaryBlock.lifetime

/-- Per-block validation of a canonical block.  Modelled from the spec:
type-specific structure is verified; the data model fixes the payload
block number as 1.  (The spec names no further per-block conditions, and
the block-level sources are outside the tree.) -/
def blockCheckValid (cb : CanonicalBlock) : Bool :=
  if cb.typeCode = BlockTypePayloadBlock then cb.blockNumber == 1 else true

/-- Per-block validation of the primary block.  Modelled from the spec:
the version is 7. -/
def primaryCheckValid (pb : PrimaryBlock) : Bool :=
  pb.version == 7

/-- `b.CheckValid()` from the bundle source file: per-block checks, the
status-report flag check on the payload block, uniqueness of extension
block numbers, a bundle-age block when the creation timestamp is zero,
and the lifetime check.  The per-value context check has no content in
the spec and is modelled as passing.  Returns true when no error is
aggregated. -/
def checkValidBundle (now : Nat) (b : Bundle) : Bool :=
  primaryCheckValid b.primaryBlock &&
    b.extensionBlocks.all blockCheckValid &&
    blockCheckValid b.payloadBlock &&
    !(hasFlag b.payloadBlock.blockControlFlags StatusReportBlock) &&
    decide (b.extensionBlocks.map (fun cb => cb.blockNumber)).Nodup &&
    (if b.primaryBlock.creationTimestamp.isZeroTime then
      hasExtensionBlock b BlockTypeBundleAgeBlock
    else true) &&
    !(isLifetimeExceeded now b)

/-- The Go zero value `Bundle{}`. -/
def zeroBundle : Bundle :=
  { primaryBlock :=
      { version := 0, bundleControlFlags := 0, crcType := 0
        destination := { nodeName := [], demux := [], isDtnNone := false }
        sourceNode := { nodeName := [], demux := [], isDtnNone := false }
        reportTo := { nodeName := [], demux := [], isDtnNone := false }
        creationTimestamp := { dtnTime := 0, seqNo := 0 }
        lifetime := 0, fragmentOffset := 0, totalDataLength := 0, crc := [] }
    extensionBlocks := []
    payloadBlock := zeroCanonicalBlock }

/-- The canonical-block loop of `UnmarshalCbor` in Go style: on failure
the partially accumulated state is kept (the Go method mutates the
receiver in place), and the error is reported alongside. -/
def parseBlocksLoopGo : Nat → Bytes → List CanonicalBlock → CanonicalBlock →
    List CanonicalBlock × CanonicalBlock × Option Bytes × Bytes
  | 0, bytes, ext, pay => (ext, pay, some [102], bytes)
  | fuel + 1, bytes, ext, pay =>
    if bytes.head? = some BreakCode then (ext, pay, none, bytes.tail)
    else
      match parseCanonicalBlock bytes with
      | none => (ext, pay, some [99], bytes)
      | some (cb, rest) =>
        if cb.typeCode = BlockTypePayloadBlock then parseBlocksLoopGo fuel rest ext cb
        else parseBlocksLoopGo fuel rest (ext ++ [cb]) pay

/-- `cboring.Unmarshal` of a bundle / `ParseBundle`, Go style: returns
the (possibly partially filled) bundle together with an optional error
(error contents are represented as small byte tags).  The final step of
`UnmarshalCbor` returns `b.CheckValid()`. -/
def parseBundleGo (now : Nat) (bs : Bytes) : Bundle × Option Bytes :=
  if bs.head? = some IndefiniteArray then
    match parsePrimaryBlock bs.tail with
    | some (pb, r1) =>
      match parseBlocksLoopGo (r1.length + 1) r1 [] zeroCanonicalBlock with
      | (ext, pay, err, _) =>
        let b : Bundle := { primaryBlock := pb, extensionBlocks := ext, payloadBlock := pay }
        match err with
        | some e => (b, some e)
        | none => (b, if checkValidBundle now b then none else some [118])
    | none => (zeroBundle, some [112])
  else (zeroBundle, some [101])

/-- `b.UnmarshalCbor` as an all-or-nothing decoder. -/
def unmarshalBundle (now : Nat) (bs : Bytes) : Except Bytes Bundle :=
  match parseBundleGo now bs with
  | (b, none) => .ok b
  | (_, some e) => .error e

/-! ## Fragmentation (translated from the fragmentation source file) -/

/-- `fragmentPrimaryBlock`: the fragment's primary block (flags gain
`IsFragment`, offset and total length are set, the CRC field is the Go
zero value) and the length of its serialization. -/
def fragmentPrimaryBlock (pb : PrimaryBlock) (fragmentOffset totalDataLength : Nat) :
    PrimaryBlock × Nat :=
  let fragPb : PrimaryBlock :=
    { version := pb.version
      bundleControlFlags := setFlag pb.bundleControlFlags IsFragment
      crcType := pb.crcType
      destination := pb.destination
      sourceNode := pb.sourceNode
      reportTo := pb.reportTo
      creationTimestamp := pb.creationTimestamp
      lifetime := pb.lifetime
      fragmentOffset := fragmentOffset
      totalDataLength := totalDataLength
      crc := [] }
  (fragPb, (marshalPrimaryBlock fragPb).length)

/-- `cboring.WriteByteStringLen(n)` writes the byte-string head for
length `n`; this is the length of that head. -/
def writeByteStringLenLen (n : Nat) : Nat := (cborHead 2 n).length

/-- `fragmentExtensionBlocksLen`: estimated extension-block overhead of
the first fragment and of the other fragments.  Payload-typed blocks are
measured with an empty payload plus the worst-case byte-string head for
`mtu` bytes; every block is measured with CRC32 set. -/
def fragmentExtensionBlocksLen (b : Bundle) (mtu : Nat) : Nat × Nat :=
  let step := fun (acc : Nat × Nat) (eb0 : CanonicalBlock) =>
    let first := acc.1
    let others := acc.2
    let eb1 := if eb0.typeCode = BlockTypePayloadBlock then
        { blockNumber := eb0.blockNumber, blockControlFlags := eb0.blockControlFlags
          crcType := NoCRC, value := BlockValue.payload [] }
      else eb0
    let eb := { eb1 with crcType := CRC32 }
    let cbLen := (marshalCanonicalBlock eb).length
    let first := first + cbLen
    let others := if hasFlag eb.blockControlFlags ReplicateBlock then others + cbLen else others
    if eb.typeCode = BlockTypePayloadBlock then
      (first + writeByteStringLenLen mtu - 1, others + cbLen + writeByteStringLenLen mtu - 1)
    else (first, others)
  let acc := b.extensionBlocks.foldl step (0, 0)
  let eb : CanonicalBlock :=
    { blockNumber := 1, blockControlFlags := b.payloadBlock.blockControlFlags
      crcType := CRC32, value := BlockValue.payload [] }
  let cbLen := (marshalCanonicalBlock eb).length
  (acc.1 + cbLen + writeByteStringLenLen mtu - 1,
    acc.2 + cbLen + writeByteStringLenLen mtu - 1)

/-- The fragment-construction loop of `Fragment`, with explicit fuel
(`i` grows by at least one per iteration when no error occurs, so
`data.length + 1` fuel always suffices; the fuel-exhaustion branch is
unreachable from `fragmentGo`). -/
def fragLoop (b : Bundle) (data : Bytes) (mtu extFirst extOther now : Nat) :
    Nat → Nat → Except Bytes (List Bundle)
  | _, 0 => .error [102]
  | i, fuel + 1 =>
    if i < data.length then
      let pr := fragmentPrimaryBlock b.primaryBlock i data.length
      let overhead := 2 + pr.2 + (if i = 0 then extFirst else extOther)
      if overhead ≥ mtu then .error [111]
      else
        let base : Bundle :=
          { primaryBlock := pr.1, extensionBlocks := [], payloadBlock := zeroCanonicalBlock }
        let withExt :=
          (b.extensionBlocks.filter
            (fun cb => i = 0 ∨ hasFlag cb.blockControlFlags ReplicateBlock)).foldl
            addExtensionBlock base
        let fragPayloadBlockLen := mtu - overhead
        let offset := min (i + fragPayloadBlockLen) data.length
        let fragBundle : Bundle :=
          { withExt with payloadBlock :=
              { blockNumber := 1
                blockControlFlags := b.payloadBlock.blockControlFlags
                crcType := b.payloadBlock.crcType
                value := BlockValue.payload ((data.take offset).drop i) } }
        if checkValidBundle now fragBundle then
          match fragLoop b data mtu extFirst extOther now (i + fragPayloadBlockLen) fuel with
          | .error e => .error e
          | .ok rest => .ok (fragBundle :: rest)
        else .error [118]
    else .ok []

/-- `Bundle.Fragment(mtu)`.  The payload value is reached through a Go
type assertion; a non-payload value would panic, modelled as an error. -/
def fragmentGo (now : Nat) (b : Bundle) (mtu : Nat) : Except Bytes (List Bundle) :=
  if hasFlag b.primaryBlock.bundleControlFlags MustNotFragmented then .error [109]
  else
    match b.payloadBlock.value with
    | .payload data =>
      let ext := fragmentExtensionBlocksLen b mtu
      match fragLoop b data mtu ext.1 ext.2 now 0 (data.length + 1) with
      | .error e => .error e
      | .ok bs => .ok (if bs.length = 1 then [b] else bs)
    | _ => .error [116]

/-- The payload bytes of a bundle (Go reaches them by type assertion). -/
def payloadDataOf (b : Bundle) : Bytes :=
  match b.payloadBlock.value with
  | .payload d => d
  | _ => []

/-- Ordering of fragments by fragment offset for `prepareReassembly`. -/
def fragOffsetLE (a b : Bundle) : Prop :=
  a.primaryBlock.fragmentOffset ≤ b.primaryBlock.fragmentOffset

instance : DecidableRel fragOffsetLE := fun a b => by
  unfold fragOffsetLE; infer_instance

def sortFragments (bs : List Bundle) : List Bundle := bs.insertionSort fragOffsetLE

/-- The gap check of `prepareReassembly`: every element must carry
`IsFragment`, offsets may not leave a gap; the final `lastIndex` is
returned. -/
def contiguityScan : List Bundle → Nat → Except Bytes Nat
  | [], lastIndex => .ok lastIndex
  | b :: rest, lastIndex =>
    if !hasFlag b.primaryBlock.bundleControlFlags IsFragment then .error [110]
    else if b.primaryBlock.fragmentOffset > lastIndex then .error [103]
    else contiguityScan rest (b.primaryBlock.fragmentOffset + (payloadDataOf b).length)

/-- `prepareReassembly`: sort by offset (the Go sort mutates the caller's
slice; the sorted list is returned here), check contiguity and the total
data length. -/
def prepareReassembly (bs : List Bundle) : Except Bytes (List Bundle) :=
  match bs with
  | [] => .error [101]
  | _ =>
    let sorted := sortFragments bs
    match contiguityScan sorted 0 with
    | .error e => .error e
    | .ok lastIndex =>
      match sorted with
      | [] => .error [101]
      | s0 :: _ =>
        if s0.primaryBlock.totalDataLength ≠ lastIndex then .error [108]
        else .ok sorted

/-- `mergeFragmentPayload`: concatenate payload slices, trusting earlier
fragments on overlap (the Go index arithmetic is on ints; in the
contiguous case modelled here `lastIndex - fragStartIndex` is never
negative, matching the natural-number truncation). -/
def mergePayloadAux : List Bundle → Nat → Bytes → Bytes
  | [], _, data => data
  | b :: rest, lastIndex, data =>
    let fragStartIndex := b.primaryBlock.fragmentOffset
    let fragPayloadData := payloadDataOf b
    mergePayloadAux rest (fragStartIndex + fragPayloadData.length)
      (data ++ fragPayloadData.drop (lastIndex - fragStartIndex))

/-- `ReassembleFragments`: rebuild a bundle from the first fragment's
primary and extension blocks (clearing `IsFragment`, the offsets and the
primary CRC), merge the payload, and finally run `CheckValid` (the Go
function returns the bundle together with that error; the error case is
collapsed into `Except.error`). -/
def reassembleFragments (now : Nat) (bs : List Bundle) : Except Bytes Bundle :=
  match prepareReassembly bs with
  | .error e => .error e
  | .ok sorted =>
    match sorted with
    | [] => .error [101]
    | s0 :: _ =>
      let pb0 := s0.primaryBlock
      let pb : PrimaryBlock :=
        { pb0 with
          bundleControlFlags := clearFlag pb0.bundleControlFlags IsFragment
          fragmentOffset := 0
          totalDataLength := 0
          crc := [] }
      let base : Bundle :=
        { primaryBlock := pb, extensionBlocks := [], payloadBlock := zeroCanonicalBlock }
      let withExt := s0.extensionBlocks.foldl addExtensionBlock base
      let payload := mergePayloadAux sorted 0 []
      let pay0 := s0.payloadBlock
      let cb := (NewCanonicalBlock 1 pay0.blockControlFlags (.payload payload)).setCRCType
        pay0.crcType
      let result : Bundle := { withExt with payloadBlock := cb }
      if checkValidBundle now result then .ok result else .error [118]

/-! ## Well-formedness of in-memory bundles

These predicates collect what it means for an in-memory value to be
representable on the Go side (numeric fields fit in uint64, endpoints
satisfy their own validity) and to respect the structural invariants the
spec states for bundles (the payload block is the block with the payload
type code, a block kept as an unknown type really has an unknown type
code). -/

def valueWF : BlockValue → Prop
  | .payload _ => True
  | .previousNode e => endpointWF e
  | .bundleAge n => n < 2 ^ 64
  | .hopCount l c => l < 2 ^ 64 ∧ c < 2 ^ 64
  | .unknown t _ => t ≠ BlockTypePayloadBlock ∧ t ≠ BlockTypePreviousNodeBlock ∧
      t ≠ BlockTypeBundleAgeBlock ∧ t ≠ BlockTypeHopCountBlock ∧ t < 2 ^ 64

instance (v : BlockValue) : Decidable (valueWF v) := by
  cases v <;> (unfold valueWF; infer_instance)

def canonicalWF (cb : CanonicalBlock) : Prop :=
  cb.blockNumber < 2 ^ 64 ∧ cb.blockControlFlags < 2 ^ 64 ∧ cb.crcType ≤ 2 ∧
    valueWF cb.value ∧ (valueBytes cb.value).length < 2 ^ 64

instance (cb : CanonicalBlock) : Decidable (canonicalWF cb) := by
  unfold canonicalWF; infer_instance

def primaryWF (pb : PrimaryBlock) : Prop :=
  pb.version < 2 ^ 64 ∧ pb.bundleControlFlags < 2 ^ 64 ∧ pb.crcType ≤ 2 ∧
    endpointWF pb.destination ∧ endpointWF pb.sourceNode ∧ endpointWF pb.reportTo ∧
    pb.creationTimestamp.dtnTime < 2 ^ 64 ∧ pb.creationTimestamp.seqNo < 2 ^ 64 ∧
    pb.lifetime < 2 ^ 64 ∧ pb.fragmentOffset < 2 ^ 64 ∧ pb.totalDataLength < 2 ^ 64 ∧
    (hasFlag pb.bundleControlFlags IsFragment = false →
      pb.fragmentOffset = 0 ∧ pb.totalDataLength = 0)

instance (pb : PrimaryBlock) : Decidable (primaryWF pb) := by
  unfold primaryWF; infer_instance

/-- A well-formed bundle: a well-formed primary block, well-formed
canonical blocks, the payload block carried in the payload-block slot
(type code 1, per the spec the designated payload block), and no
payload-typed block among the extension blocks (the spec admits at most
one payload block). -/
def bundleWF (b : Bundle) : Prop :=
  primaryWF b.primaryBlock ∧ (∀ cb ∈ b.extensionBlocks, canonicalWF cb) ∧
    canonicalWF b.payloadBlock ∧ b.payloadBlock.typeCode = BlockTypePayloadBlock ∧
    ∀ cb ∈ b.extensionBlocks, cb.typeCode ≠ BlockTypePayloadBlock

instance (b : Bundle) : Decidable (bundleWF b) := by
  unfold bundleWF; infer_instance

/-! ## Bundle store (translated from the store source file)

The metadata index (badgerhold) is an external key-value store with
atomic per-record updates; it is modelled as an association list keyed by
the bundle-ID string (represented by the `BundleID` itself, the string
rendering being injective per spec).  Bundle bodies live in one file per
bundle, named by the hex SHA-256 of the ID string (likewise modelled by
the ID); the file map associates names to raw bytes.  Index and file
operations themselves are modelled as succeeding. -/

structure BundleStore where
  nodeID : EndpointID
  metadata : List (BundleID × BundleDescriptor)
  files : List (BundleID × Bytes)
deriving DecidableEq

/-- `metadataStore.Get(key)`. -/
def assocGet (meta : List (BundleID × BundleDescriptor)) (k : BundleID) :
    Option BundleDescriptor :=
  (meta.find? (fun p => p.1 == k)).map Prod.snd

/-- File lookup by name (`os.Open`). -/
def fileGet (files : List (BundleID × Bytes)) (k : BundleID) : Option Bytes :=
  (files.find? (fun p => p.1 == k)).map Prod.snd

/-- `updateBundleMetadata`: atomic replace by key; the in-memory bundle
cache is stripped before the record is written. -/
def updateMeta (meta : List (BundleID × BundleDescriptor)) (bd : BundleDescriptor) :
    List (BundleID × BundleDescriptor) :=
  meta.map (fun p => if p.1 = bd.idString then (p.1, { bd with bundle := none }) else p)

/-- The endpoint carried by a previous-node block value (Go type
assertion; other values cannot occur on the well-formed paths). -/
def previousNodeEndpoint : BlockValue → EndpointID
  | .previousNode e => e
  | _ => { nodeName := [], demux := [], isDtnNone := false }

/-- The fresh descriptor `insertNewBundle` builds: constraints
`[DispatchPending]`, retained, dispatchable, `already_sent_to` seeded
with the own node ID plus the previous-node hint if present. -/
def newDescriptor (st : BundleStore) (bundle : Bundle) : BundleDescriptor :=
  let idStr := bundle.id
  let bd0 : BundleDescriptor :=
    { id := bundle.id
      idString := idStr
      source := bundle.primaryBlock.sourceNode
      destination := bundle.primaryBlock.destination
      reportTo := bundle.primaryBlock.reportTo
      alreadySentTo := [st.nodeID]
      retentionConstraints := [DispatchPending]
      retain := true
      dispatch := true
      expires := bundle.primaryBlock.creationTimestamp.dtnTime + bundle.primaryBlock.lifetime
      serialisedFileName := idStr
      bundle := none }
  match extensionBlockByType bundle BlockTypePreviousNodeBlock with
  | some pnb =>
    { bd0 with alreadySentTo := bd0.alreadySentTo ++ [previousNodeEndpoint pnb.value] }
  | none => bd0

/-- `insertNewBundle`: build the fresh descriptor, insert the metadata
record and write the serialized body file. -/
def insertNewBundle (st : BundleStore) (bundle : Bundle) : BundleStore × BundleDescriptor :=
  let bd := newDescriptor st bundle
  ({ st with
      metadata := st.metadata ++ [(bundle.id, bd)]
      files := st.files ++ [(bundle.id, marshalBundle bundle)] },
    bd)

/-- `InsertBundle`: if a record for the bundle ID exists, merge the
previous-node hint (if present) into `already_sent_to` and update the
record; otherwise insert a new bundle. -/
def insertBundle (st : BundleStore) (bundle : Bundle) : BundleStore × BundleDescriptor :=
  match assocGet st.metadata bundle.id with
  | none => insertNewBundle st bundle
  | some bd =>
    match extensionBlockByType bundle BlockTypePreviousNodeBlock with
    | some pnb =>
      let bd2 := { bd with alreadySentTo := bd.alreadySentTo ++ [previousNodeEndpoint pnb.value] }
      ({ st with metadata := updateMeta st.metadata bd2 }, bd2)
    | none => (st, bd)

/-- `GetWithConstraint` with the badgerhold scan modelled per spec
(descriptors whose constraint list contains `c`) and the Go loop
`for i, bndl := range bundles { ptrs[i] = &bndl }` modelled with an
explicit cell arena: the module's go.mod declares go 1.25, so the loop
variable is allocated afresh per iteration (since Go 1.22) and each
pointer refers to its own cell.  Returns the arena and the pointer list
(cell indices). -/
def getWithConstraint (st : BundleStore) (c : Constraint) :
    List BundleDescriptor × List Nat :=
  let bundles := (st.metadata.map Prod.snd).filter
    (fun bd => decide (c ∈ bd.retentionConstraints))
  bundles.foldl
    (fun acc bndl => (acc.1 ++ [bndl], acc.2 ++ [acc.1.length]))
    ([], [])

/-- `loadEntireBundle(filename)`: open and decode the body file.  The
source discards the decode error and returns `bundle, nil`, so only a
failing `os.Open` surfaces as an error. -/
def loadEntireBundle (st : BundleStore) (now : Nat) (filename : BundleID) :
    Except Bytes Bundle :=
  match fileGet st.files filename with
  | none => .error [111]
  | some contents => .ok (parseBundleGo now contents).1

/-- `BundleDescriptor.Load()`: cached bundle, or load from disk and
cache. -/
def BundleDescriptor.load (bd : BundleDescriptor) (st : BundleStore) (now : Nat) :
    Except Bytes (Bundle × BundleDescriptor) :=
  match bd.bundle with
  | some b => .ok (b, bd)
  | none =>
    match loadEntireBundle st now bd.serialisedFileName with
    | .error e => .error e
    | .ok b => .ok (b, { bd with bundle := some b })

/-! ## Forwarding pipeline (translated from the processing source file) -/

/-- A `ConvergenceSender` as the forwarding procedure sees it: an address
and the peer endpoint ID; whether its `Send` succeeds is a parameter of
the pipeline model. -/
structure Sender where
  address : Bytes
  peerID : EndpointID
deriving DecidableEq, Repr

/-- `forwardingAsync` / `BundleForwarding`: step 1 adds `ForwardPending`
and removes `DispatchPending` (each persisted); step 2 consults routing;
step 3 contraindicates (`ResetConstraints`, persisted) when no peers are
chosen; otherwise the body is loaded, the previous-node block replaced,
the bundle sent to each chosen peer (successful peers are appended to
`already_sent_to` under the fan-out mutex and persisted) and finally
`ForwardPending` is removed and persisted.  Routing and the per-peer send
outcome are parameters; the fan-out is modelled in peer order (the claim
settled against this model only exercises the empty-peer path). -/
def forwardingAsync (ownNodeID : EndpointID) (selectPeers : BundleDescriptor → List Sender)
    (sendOk : Sender → Bool) (now : Nat) (st : BundleStore) (bd : BundleDescriptor) :
    BundleStore × BundleDescriptor :=
  match bd.addConstraint ForwardPending with
  | .error _ => (st, bd)
  | .ok bd1 =>
    let st1 := { st with metadata := updateMeta st.metadata bd1 }
    let bd2 := bd1.removeConstraint DispatchPending
    let st2 := { st1 with metadata := updateMeta st1.metadata bd2 }
    let forwardToPeers := selectPeers bd2
    if forwardToPeers.length = 0 then
      let bd3 := bd2.resetConstraints
      ({ st2 with metadata := updateMeta st2.metadata bd3 }, bd3)
    else
      match bd2.load st2 now with
      | .error _ => (st2, bd2)
      | .ok (bundle0, bd2l) =>
        let bundle1 := match extensionBlockByType bundle0 BlockTypePreviousNodeBlock with
          | some pnb => removeExtensionBlockByBlockNumber bundle0 pnb.blockNumber
          | none => bundle0
        let bundle2 := addExtensionBlock bundle1
          (NewCanonicalBlock 0 0 (.previousNode ownNodeID))
        let sentTo := (forwardToPeers.filter sendOk).map (fun p => p.peerID)
        let bd3 := { bd2l with
          alreadySentTo := bd2l.alreadySentTo ++ sentTo
          bundle := some bundle2 }
        let st3 := { st2 with metadata := updateMeta st2.metadata bd3 }
        let bd4 := bd3.removeConstraint ForwardPending
        ({ st3 with metadata := updateMeta st3.metadata bd4 }, bd4)

/-- `BundleForwarding` wraps `forwardingAsync`. -/
def bundleForwarding (ownNodeID : EndpointID) (selectPeers : BundleDescriptor → List Sender)
    (sendOk : Sender → Bool) (now : Nat) (st : BundleStore) (bd : BundleDescriptor) :
    BundleStore × BundleDescriptor :=
  forwardingAsync ownNodeID selectPeers sendOk now st bd

/-! ## CLA manager (translated from the cla manager source file)

A CLA instance is modelled by its address, its capabilities (which of the
`ConvergenceReceiver` / `ConvergenceSender` interfaces the concrete type
implements) and its peer endpoint ID.  The Go sender and receiver lists
are slices of interface values whose zero value is nil, modelled as
`Option` entries.  The disconnect callback invocations are recorded in
order. -/

structure Convergence where
  address : Bytes
  isReceiver : Bool
  isSender : Bool
  peerID : EndpointID
deriving DecidableEq, Repr

structure CLAManager where
  receivers : List (Option Convergence)
  senders : List (Option Convergence)
  pendingStart : List Convergence
  disconnectCalls : List EndpointID
deriving DecidableEq, Repr

def optAddr (o : Option Convergence) : Option Bytes := o.map (fun c => c.address)

/-- `registerAsync` on the successful-activation path: the duplicate
checks against pending, receiver and sender lists, then the pending
insert, activation, list updates and pending removal.  (The Go loops
call `Address()` on every stored entry and would panic on a nil entry;
nil entries only arise from the `NotifyDisconnect` defect, and the claims
exercise this function from nil-free states.) -/
def registerAsync (m : CLAManager) (cla : Convergence) : CLAManager :=
  if m.pendingStart.any (fun p => p.address == cla.address) then m
  else if cla.isReceiver && m.receivers.any (fun r => optAddr r == some cla.address) then m
  else if cla.isSender && m.senders.any (fun s => optAddr s == some cla.address) then m
  else
    let m1 := { m with pendingStart := m.pendingStart ++ [cla] }
    { m1 with
      receivers := if cla.isReceiver then m1.receivers ++ [some cla] else m1.receivers
      senders := if cla.isSender then m1.senders ++ [some cla] else m1.senders
      pendingStart := m1.pendingStart.filter (fun p => p.address ≠ cla.address) }

/-- `NotifyDisconnect`: for each capability of the disconnecting CLA the
Go code allocates `make([]T, len(list))` — a slice already holding
`len(list)` nil entries — and appends the surviving entries to it; a
disconnecting sender's peer ID is passed to the disconnect callback. -/
def notifyDisconnect (m : CLAManager) (cla : Convergence) : CLAManager :=
  let m1 := if cla.isReceiver then
      { m with receivers :=
          List.replicate m.receivers.length none ++
            m.receivers.filter (fun r => optAddr r ≠ some cla.address) }
    else m
  if cla.isSender then
    { m1 with
      disconnectCalls := m1.disconnectCalls ++ [cla.peerID]
      senders :=
        List.replicate m.senders.length none ++
          m.senders.filter (fun s => optAddr s ≠ some cla.address) }
  else m1

/-! ## Sequence-ID keeper (translated from the id_keeper source file) -/

structure IdTuple where
  source : EndpointID
  time : Nat
deriving DecidableEq, Repr

/-- `IdKeeper.Clean`: the threshold is `DtnTimeNow() - 60` in uint64
arithmetic — sixty DTN-time units (milliseconds), wrapping below 60 —
and every entry whose time is below the threshold is deleted.  The map
is modelled as an association list. -/
def idKeeperClean (now : Nat) (data : List (IdTuple × Nat)) : List (IdTuple × Nat) :=
  let threshold := (now % 2 ^ 64 + 2 ^ 64 - 60) % 2 ^ 64
  data.filter (fun e => !(e.1.time < threshold))

/-! ### Sample data for concrete evaluations -/

/-- The endpoint `dtn://a/`. -/
def epNodeA : EndpointID := { nodeName := [97], demux := [], isDtnNone := false }

/-- The endpoint `dtn://b/x`. -/
def epNodeB : EndpointID := { nodeName := [98], demux := [120], isDtnNone := false }

/-- The null endpoint `dtn:none`. -/
def epNone : EndpointID := { nodeName := [], demux := [], isDtnNone := true }

def sampleTimestamp : CreationTimestamp := { dtnTime := 1000, seqNo := 0 }

def sampleBundleID : BundleID :=
  { sourceNode := epNodeA, timestamp := sampleTimestamp
    isFragment := false, fragmentOffset := 0, totalDataLength := 0 }

/-- A descriptor exactly as `insertNewBundle` creates it: constraint set
`[DispatchPending]`, retained and dispatchable. -/
def sampleDescriptor : BundleDescriptor :=
  { id := sampleBundleID
    source := epNodeA
    destination := epNodeB
    reportTo := epNodeA
    bundle := none
    alreadySentTo := [epNodeA]
    retentionConstraints := [DispatchPending]
    idString := sampleBundleID
    retain := true
    dispatch := true
    expires := 601000
    serialisedFileName := sampleBundleID }

/-- A previous-node extension block pointing at `dtn://b/x`. -/
def prevNodeBlockSample : CanonicalBlock :=
  { blockNumber := 2, blockControlFlags := 0, crcType := 0, value := .previousNode epNodeB }

/-- A payload block carrying the bytes of "hi". -/
def samplePayloadBlock : CanonicalBlock :=
  { blockNumber := 1, blockControlFlags := 0, crcType := 0, value := .payload [104, 105] }

def samplePrimary : PrimaryBlock :=
  { version := 7, bundleControlFlags := 0, crcType := 0, destination := epNodeB
    sourceNode := epNodeA, reportTo := epNodeA, creationTimestamp := sampleTimestamp
    lifetime := 600000, fragmentOffset := 0, totalDataLength := 0, crc := [] }

/-- A small well-formed bundle carrying a previous-node block. -/
def sampleBundle : Bundle :=
  { primaryBlock := samplePrimary
    extensionBlocks := [prevNodeBlockSample]
    payloadBlock := samplePayloadBlock }

def emptyStore : BundleStore := { nodeID := epNodeA, metadata := [], files := [] }

/-- A store holding the sample descriptor. -/
def sampleStore : BundleStore :=
  { nodeID := epNodeA, metadata := [(sampleBundleID, sampleDescriptor)], files := [] }

/-- A store holding one unparseable body file (a single zero byte). -/
def garbageStore : BundleStore :=
  { nodeID := epNodeA, metadata := [], files := [(sampleBundleID, [0])] }

/-- A CLA that is both receiver and sender, at address `a`. -/
def claA : Convergence :=
  { address := [97], isReceiver := true, isSender := true, peerID := epNodeB }

def emptyManager : CLAManager :=
  { receivers := [], senders := [], pendingStart := [], disconnectCalls := [] }

/-- A hop-count block as a caller might hand it to `AddExtensionBlock`. -/
def hopCountBlockSample : CanonicalBlock :=
  { blockNumber := 0, blockControlFlags := 0, crcType := 0, value := .hopCount 64 0 }

/-- The fragment that the loop of `Fragment` builds at payload position
`i` (its primary block, the replicated extension blocks re-added through
`AddExtensionBlock`, and the payload slice). -/
def fragAt (b : Bundle) (data : Bytes) (mtu eF eO i : Nat) : Bundle :=
  let pr := fragmentPrimaryBlock b.primaryBlock i data.length
  let overhead := 2 + pr.2 + (if i = 0 then eF else eO)
  let base : Bundle :=
    { primaryBlock := pr.1, extensionBlocks := [], payloadBlock := zeroCanonicalBlock }
  let withExt :=
    (b.extensionBlocks.filter
      (fun cb => i = 0 ∨ hasFlag cb.blockControlFlags ReplicateBlock)).foldl
      addExtensionBlock base
  let fragPayloadBlockLen := mtu - overhead
  let offset := min (i + fragPayloadBlockLen) data.length
  { withExt with payloadBlock :=
      { blockNumber := 1
        blockControlFlags := b.payloadBlock.blockControlFlags
        crcType := b.payloadBlock.crcType
        value := BlockValue.payload ((data.take offset).drop i) } }

instance {ε α : Type} [DecidableEq ε] [DecidableEq α] : DecidableEq (Except ε α) := fun x y =>
  match x, y with
  | .error a, .error b => decidable_of_iff (a = b) (by simp)
  | .error _, .ok _ => .isFalse (fun hc => Except.noConfusion hc)
  | .ok _, .error _ => .isFalse (fun hc => Except.noConfusion hc)
  | .ok a, .ok b => decidable_of_iff (a = b) (by simp)

/-! # Theorems -/

/-! ## Claim C1: constraint and retain/dispatch consistency -/

theorem retain_step (bd : BundleDescriptor) (op : ConstraintOp)
    (h : bd.retain = !bd.retentionConstraints.isEmpty) :
    (applyConstraintOp bd op).retain = !(applyConstraintOp bd op).retentionConstraints.isEmpty := by
  cases op with
  | add c =>
    by_cases hc : c < DispatchPending ∨ c > ReassemblyPending
    · simpa [applyConstraintOp, BundleDescriptor.addConstraint, hc] using h
    · simp [applyConstraintOp, BundleDescriptor.addConstraint, hc]
  | remove c =>
    simp only [applyConstraintOp, BundleDescriptor.removeConstraint]
    cases hf : bd.retentionConstraints.filter (fun ec => ec ≠ c) with
    | nil => simp [hf]
    | cons x xs => simp [hf]
  | reset =>
    simp [applyConstraintOp, BundleDescriptor.resetConstraints]

theorem dispatch_step (bd : BundleDescriptor) (op : ConstraintOp) :
    (applyConstraintOp bd op).dispatch = dispatchAfterOp bd.dispatch op := by
  cases op with
  | add c =>
    by_cases hc : c < DispatchPending ∨ c > ReassemblyPending
    · simp [applyConstraintOp, BundleDescriptor.addConstraint, dispatchAfterOp, hc]
    · simp [applyConstraintOp, BundleDescriptor.addConstraint, dispatchAfterOp, hc]
  | remove c => rfl
  | reset => rfl

/-- Claim C1, counterexample: starting from a freshly inserted descriptor
(constraints `[DispatchPending]`), the single operation `ResetConstraints`
leaves `Dispatch = true` although `DispatchPending` is no longer a member
of the (now empty) constraint set, so `dispatch` does not equal membership
of `DispatchPending` after every operation. -/
theorem c1_counterexample :
    (applyConstraintOps sampleDescriptor [ConstraintOp.reset]).dispatch = true ∧
      DispatchPending ∉ (applyConstraintOps sampleDescriptor [ConstraintOp.reset]).retentionConstraints := by
  constructor
  · rfl
  · simp [applyConstraintOps, applyConstraintOp, BundleDescriptor.resetConstraints]

/-- Claim C1, amended: for every descriptor whose `Retain` field is
consistent (`retain = (constraints nonempty)`, as holds for freshly
inserted descriptors) and every sequence of the three metadata
operations, after each operation `Retain` again equals (number of
retention constraints > 0); `Dispatch`, however, equals the value the
last successful operation wrote — `c ≠ ForwardPending` after
`AddConstraint(c)`, `c = ForwardPending` after `RemoveConstraint(c)`, and
`true` after `ResetConstraints` — not the membership of
`DispatchPending` in the constraint set. -/
theorem c1_amended (bd : BundleDescriptor) (ops : List ConstraintOp)
    (h0 : bd.retain = !bd.retentionConstraints.isEmpty) :
    (applyConstraintOps bd ops).retain
        = !(applyConstraintOps bd ops).retentionConstraints.isEmpty ∧
      (applyConstraintOps bd ops).dispatch = ops.foldl dispatchAfterOp bd.dispatch := by
  induction ops generalizing bd with
  | nil => exact ⟨h0, rfl⟩
  | cons op ops ih =>
    have hstep := retain_step bd op h0
    have hd := dispatch_step bd op
    have := ih (applyConstraintOp bd op) hstep
    refine ⟨this.1, ?_⟩
    simpa [applyConstraintOps, hd] using this.2

/-- Claim C1, witness: the amended theorem applied to the sample
descriptor and the operation sequence add-ForwardPending,
remove-DispatchPending, reset. -/
theorem c1_amended_witness :
    sampleDescriptor.retain = !sampleDescriptor.retentionConstraints.isEmpty ∧
      ((applyConstraintOps sampleDescriptor
            [ConstraintOp.add ForwardPending, ConstraintOp.remove DispatchPending,
              ConstraintOp.reset]).retain
          = !(applyConstraintOps sampleDescriptor
              [ConstraintOp.add ForwardPending, ConstraintOp.remove DispatchPending,
                ConstraintOp.reset]).retentionConstraints.isEmpty ∧
        (applyConstraintOps sampleDescriptor
            [ConstraintOp.add ForwardPending, ConstraintOp.remove DispatchPending,
              ConstraintOp.reset]).dispatch
          = [ConstraintOp.add ForwardPending, ConstraintOp.remove DispatchPending,
              ConstraintOp.reset].foldl dispatchAfterOp sampleDescriptor.dispatch) :=
  ⟨by decide, c1_amended sampleDescriptor _ (by decide)⟩

/-! ## Claim C8: sequence-ID keeper cleaning -/

/-- Claim C8 (code bug), evaluation at the failing input: at
`now = 7200000` ms (two hours after the DTN epoch), `Clean` removes both
the epoch entry (time 0) and an entry only 200 seconds old
(time 7000000), because the threshold `DtnTimeNow() - 60` is sixty
milliseconds — not one hour — and no epoch exemption exists, although
the method's own comment promises both. -/
theorem c8_clean_eval :
    idKeeperClean 7200000
        [({ source := epNodeA, time := 0 }, 5), ({ source := epNodeA, time := 7000000 }, 3)]
      = [] := by decide

/-! ## Claim C7: CLA manager disconnect -/

/-- Claim C7 (code bug), evaluation at the failing input: registering a
single sender-and-receiver CLA puts it in both lists, but
`NotifyDisconnect` then leaves each list as `[nil]` rather than `[]` —
`make([]T, len(list))` pre-fills `len(list)` nil interface values and the
survivors are appended after them — so the lists do not contain exactly
the active registered instances.  The disconnect callback does receive
the peer endpoint ID. -/
theorem c7_disconnect_eval :
    (registerAsync emptyManager claA).receivers = [some claA] ∧
      (registerAsync emptyManager claA).senders = [some claA] ∧
      (notifyDisconnect (registerAsync emptyManager claA) claA).receivers = [none] ∧
      (notifyDisconnect (registerAsync emptyManager claA) claA).senders = [none] ∧
      (notifyDisconnect (registerAsync emptyManager claA) claA).disconnectCalls = [epNodeB] := by
  decide

/-! ## Claim C9: load swallows decode errors -/

/-- Claim C9 (confirmed): whenever the body file can be opened and its
contents fail to CBOR-decode, `loadEntireBundle` still returns a nil
error together with the partially decoded bundle, and
`BundleDescriptor.Load` on an uncached descriptor passes that success
through to its caller. -/
theorem c9_decode_error_not_propagated (st : BundleStore) (now : Nat) (name : BundleID)
    (contents : Bytes) (bd : BundleDescriptor)
    (hfile : fileGet st.files name = some contents)
    (hbad : (parseBundleGo now contents).2.isSome = true)
    (hcache : bd.bundle = none) (hname : bd.serialisedFileName = name) :
    loadEntireBundle st now name = .ok (parseBundleGo now contents).1 ∧
      bd.load st now =
        .ok ((parseBundleGo now contents).1,
          { bd with bundle := some (parseBundleGo now contents).1 }) := by
  have h1 : loadEntireBundle st now name = .ok (parseBundleGo now contents).1 := by
    simp [loadEntireBundle, hfile]
  refine ⟨h1, ?_⟩
  simp [BundleDescriptor.load, hcache, hname, h1]

/-- Claim C9, witness: the single byte 0 is not a CBOR indefinite array,
so decoding fails, yet the load succeeds. -/
theorem c9_witness :
    (fileGet garbageStore.files sampleBundleID = some [0] ∧
        (parseBundleGo 0 [0]).2.isSome = true ∧
        sampleDescriptor.bundle = none ∧
        sampleDescriptor.serialisedFileName = sampleBundleID) ∧
      (loadEntireBundle garbageStore 0 sampleBundleID = .ok (parseBundleGo 0 [0]).1 ∧
        sampleDescriptor.load garbageStore 0 =
          .ok ((parseBundleGo 0 [0]).1,
            { sampleDescriptor with bundle := some (parseBundleGo 0 [0]).1 })) :=
  ⟨⟨by decide, by decide, by decide, by decide⟩,
    c9_decode_error_not_propagated garbageStore 0 sampleBundleID [0] sampleDescriptor
      (by decide) (by decide) (by decide) (by decide)⟩

/-! ## Store lookup and update lemmas -/

theorem assocGet_updateMeta_self (meta : List (BundleID × BundleDescriptor))
    (bd : BundleDescriptor) (h : (assocGet meta bd.idString).isSome = true) :
    assocGet (updateMeta meta bd) bd.idString = some { bd with bundle := none } := by
  induction meta with
  | nil => simp [assocGet] at h
  | cons p rest ih =>
    have hcons : updateMeta (p :: rest) bd =
        (if p.1 = bd.idString then (p.1, { bd with bundle := none }) else p) ::
          updateMeta rest bd := rfl
    by_cases hp : p.1 = bd.idString
    · rw [hcons, if_pos hp]
      have hpos : (((p.1, { bd with bundle := none }) :
          BundleID × BundleDescriptor).1 == bd.idString) = true := by simp [hp]
      unfold assocGet
      simp only [List.find?_cons, hpos]
      rfl
    · have hneg : (((p : BundleID × BundleDescriptor).1 == bd.idString)) = false := by
        simp [hp]
      have h' : (assocGet rest bd.idString).isSome = true := by
        unfold assocGet at h ⊢
        simp only [List.find?_cons, hneg] at h
        exact h
      rw [hcons, if_neg hp]
      unfold assocGet
      simp only [List.find?_cons, hneg]
      exact ih h'

theorem assocGet_updateMeta_isSome (meta : List (BundleID × BundleDescriptor))
    (bd : BundleDescriptor) (h : (assocGet meta bd.idString).isSome = true) :
    (assocGet (updateMeta meta bd) bd.idString).isSome = true := by
  rw [assocGet_updateMeta_self meta bd h]
  rfl

theorem assocGet_append_self (meta : List (BundleID × BundleDescriptor))
    (k : BundleID) (bd : BundleDescriptor) (h : assocGet meta k = none) :
    assocGet (meta ++ [(k, bd)]) k = some bd := by
  induction meta with
  | nil =>
    unfold assocGet
    rw [List.nil_append]
    simp only [List.find?_cons, (by simp : (((k, bd) :
      BundleID × BundleDescriptor).1 == k) = true)]
    rfl
  | cons p rest ih =>
    by_cases hk : p.1 = k
    · exfalso
      have hpos : ((p : BundleID × BundleDescriptor).1 == k) = true := by simp [hk]
      unfold assocGet at h
      simp only [List.find?_cons, hpos] at h
      simp at h
    · have hneg : ((p : BundleID × BundleDescriptor).1 == k) = false := by simp [hk]
      have h' : assocGet rest k = none := by
        unfold assocGet at h ⊢
        simp only [List.find?_cons, hneg] at h
        exact h
      rw [List.cons_append]
      unfold assocGet
      simp only [List.find?_cons, hneg]
      exact ih h'

/-! ## Claim C2: contraindication -/

/-- Claim C2, counterexample: running the forwarding procedure on the
sample descriptor with routing returning no peers ends with the
constraint set empty — not `[DispatchPending]` as the claim states. -/
theorem c2_counterexample :
    (bundleForwarding epNodeA (fun _ => []) (fun _ => true) 0 sampleStore
        sampleDescriptor).2.retentionConstraints ≠ [DispatchPending] := by
  decide

/-- Claim C2, amended: for every descriptor present in the store for
which routing returns an empty peer list, the forwarding procedure
terminates with the descriptor's retention-constraint set empty —
`ResetConstraints` empties the set rather than writing
`[DispatchPending]` — with `Retain = false` and `Dispatch = true` (so the
store still reports the bundle dispatchable and it is retried on later
ticks), and this final state is persisted to the store. -/
theorem c2_amended (own : EndpointID) (selectPeers : BundleDescriptor → List Sender)
    (sendOk : Sender → Bool) (now : Nat) (st : BundleStore) (bd : BundleDescriptor)
    (hsel : ∀ d, selectPeers d = [])
    (hmem : (assocGet st.metadata bd.idString).isSome = true) :
    (bundleForwarding own selectPeers sendOk now st bd).2.retentionConstraints = [] ∧
      (bundleForwarding own selectPeers sendOk now st bd).2.retain = false ∧
      (bundleForwarding own selectPeers sendOk now st bd).2.dispatch = true ∧
      assocGet (bundleForwarding own selectPeers sendOk now st bd).1.metadata bd.idString
        = some { (bundleForwarding own selectPeers sendOk now st bd).2 with bundle := none } := by
  have hvalid : ¬ (ForwardPending < DispatchPending ∨ ForwardPending > ReassemblyPending) := by
    decide
  simp only [bundleForwarding, forwardingAsync, BundleDescriptor.addConstraint, if_neg hvalid,
    hsel, List.length_nil, if_pos rfl, BundleDescriptor.removeConstraint,
    BundleDescriptor.resetConstraints]
  refine ⟨rfl, rfl, rfl, ?_⟩
  exact assocGet_updateMeta_self _ _
    (assocGet_updateMeta_isSome _ _ (assocGet_updateMeta_isSome _ _ hmem))

/-- Claim C2, witness: the amended theorem at the sample store and
descriptor. -/
theorem c2_amended_witness :
    ((∀ d : BundleDescriptor, (fun _ : BundleDescriptor => ([] : List Sender)) d = []) ∧
        (assocGet sampleStore.metadata sampleDescriptor.idString).isSome = true) ∧
      ((bundleForwarding epNodeA (fun _ => []) (fun _ => true) 0 sampleStore
            sampleDescriptor).2.retentionConstraints = [] ∧
        (bundleForwarding epNodeA (fun _ => []) (fun _ => true) 0 sampleStore
            sampleDescriptor).2.retain = false ∧
        (bundleForwarding epNodeA (fun _ => []) (fun _ => true) 0 sampleStore
            sampleDescriptor).2.dispatch = true ∧
        assocGet (bundleForwarding epNodeA (fun _ => []) (fun _ => true) 0 sampleStore
              sampleDescriptor).1.metadata sampleDescriptor.idString
          = some { (bundleForwarding epNodeA (fun _ => []) (fun _ => true) 0 sampleStore
              sampleDescriptor).2 with bundle := none }) :=
  ⟨⟨fun _ => rfl, by decide⟩,
    c2_amended epNodeA (fun _ => []) (fun _ => true) 0 sampleStore sampleDescriptor
      (fun _ => rfl) (by decide)⟩

/-! ## Claim C6: query by constraint -/

theorem getWithConstraint_foldl (bundles : List BundleDescriptor)
    (h : List BundleDescriptor) (p : List Nat) :
    bundles.foldl (fun acc bndl => (acc.1 ++ [bndl], acc.2 ++ [acc.1.length])) (h, p) =
      (h ++ bundles, p ++ List.range' h.length bundles.length) := by
  induction bundles generalizing h p with
  | nil => simp
  | cons b rest ih =>
    simp only [List.foldl, ih]
    simp [List.range'_succ, List.append_assoc]

theorem map_get_range (l : List BundleDescriptor) :
    (List.range l.length).map (fun i => l.get? i) = l.map some := by
  induction l with
  | nil => simp
  | cons a rest ih =>
    rw [List.length_cons, List.range_succ_eq_map, List.map_cons, List.map_map]
    have hcomp : ((fun i => (a :: rest).get? i) ∘ Nat.succ) = fun i => rest.get? i := by
      funext i
      rfl
    rw [hcomp, ih]
    rfl

/-- Claim C6 (confirmed): `GetWithConstraint(c)` returns pointers to
exactly the descriptors whose `RetentionConstraints` contain `c`, and —
because the module's go.mod selects go 1.25, giving the range loop a
fresh variable per iteration — every returned pointer refers to its own
cell, so distinct descriptors are returned as distinct records.  The
arena cells referenced by the pointers hold, in order, precisely the
matching descriptors, and the pointers are pairwise distinct. -/
theorem c6_get_with_constraint (st : BundleStore) (c : Constraint) :
    (getWithConstraint st c).2.map (fun i => (getWithConstraint st c).1.get? i) =
        ((st.metadata.map Prod.snd).filter
          (fun bd => decide (c ∈ bd.retentionConstraints))).map some ∧
      (getWithConstraint st c).2.Nodup := by
  unfold getWithConstraint
  rw [getWithConstraint_foldl]
  simp only [List.nil_append, List.length_nil, ← List.range_eq_range']
  exact ⟨map_get_range _, List.nodup_range _⟩

/-! ## Claim C5: insertion idempotence -/

theorem countP_updateMeta (meta : List (BundleID × BundleDescriptor))
    (bd : BundleDescriptor) (k : BundleID) :
    (updateMeta meta bd).countP (fun p => p.1 == k) = meta.countP (fun p => p.1 == k) := by
  induction meta with
  | nil => rfl
  | cons p rest ih =>
    have hcons : updateMeta (p :: rest) bd =
        (if p.1 = bd.idString then (p.1, { bd with bundle := none }) else p) ::
          updateMeta rest bd := rfl
    rw [hcons]
    by_cases hp : p.1 = bd.idString
    · simp [List.countP_cons, hp, ih]
    · simp [List.countP_cons, hp, ih]

theorem key_countP_zero {β : Type} (l : List (BundleID × β)) (k : BundleID)
    (h : l.find? (fun p => p.1 == k) = none) :
    l.countP (fun p => p.1 == k) = 0 :=
  List.countP_eq_zero.mpr (List.find?_eq_none.mp h)

theorem descriptor_set_bundle_none (bd : BundleDescriptor) (h : bd.bundle = none) :
    { bd with bundle := none } = bd := by
  cases bd
  simp_all

/-- Claim C5 (confirmed): inserting the same bundle a second time leaves
exactly one descriptor keyed by the bundle ID and exactly one body file;
the second call merges the previous-node hint (if present) into
`already_sent_to`, leaves all other descriptor state unchanged, and the
merged record is what the store holds. -/
theorem c5_insert_idempotent (st : BundleStore) (B : Bundle)
    (hfresh : assocGet st.metadata B.id = none)
    (hfreshf : fileGet st.files B.id = none) :
    ((insertBundle (insertBundle st B).1 B).1.metadata.countP (fun p => p.1 == B.id)) = 1 ∧
      (insertBundle (insertBundle st B).1 B).1.files = (insertBundle st B).1.files ∧
      ((insertBundle st B).1.files.countP (fun p => p.1 == B.id)) = 1 ∧
      (insertBundle (insertBundle st B).1 B).2.retentionConstraints
          = (insertBundle st B).2.retentionConstraints ∧
      (insertBundle (insertBundle st B).1 B).2.retain = (insertBundle st B).2.retain ∧
      (insertBundle (insertBundle st B).1 B).2.dispatch = (insertBundle st B).2.dispatch ∧
      (insertBundle (insertBundle st B).1 B).2.expires = (insertBundle st B).2.expires ∧
      (insertBundle (insertBundle st B).1 B).2.serialisedFileName
          = (insertBundle st B).2.serialisedFileName ∧
      (match extensionBlockByType B BlockTypePreviousNodeBlock with
        | some pnb =>
          (insertBundle (insertBundle st B).1 B).2.alreadySentTo
            = (insertBundle st B).2.alreadySentTo ++ [previousNodeEndpoint pnb.value]
        | none =>
          (insertBundle (insertBundle st B).1 B).2.alreadySentTo
            = (insertBundle st B).2.alreadySentTo) ∧
      assocGet (insertBundle (insertBundle st B).1 B).1.metadata B.id
        = some { (insertBundle (insertBundle st B).1 B).2 with bundle := none } := by
  have hz : st.metadata.countP (fun p => p.1 == B.id) = 0 := by
    apply key_countP_zero
    unfold assocGet at hfresh
    exact Option.map_eq_none.mp hfresh
  have hzf : st.files.countP (fun p => p.1 == B.id) = 0 := by
    apply key_countP_zero
    unfold fileGet at hfreshf
    exact Option.map_eq_none.mp hfreshf
  have hget := assocGet_append_self st.metadata B.id (newDescriptor st B) hfresh
  cases hpn : extensionBlockByType B BlockTypePreviousNodeBlock with
  | none =>
    simp only [insertBundle, insertNewBundle, hfresh, hget, hpn]
    refine ⟨?_, ?_, ?_, ?_, ?_, ?_, ?_, ?_, ?_, ?_⟩ <;>
      first
        | trivial
        | (simp [List.countP_append, hz, hzf, List.countP_cons]
           done)
        | (have hb : (newDescriptor st B).bundle = none := by
             unfold newDescriptor
             rw [hpn]
           exact congrArg some (descriptor_set_bundle_none _ hb).symm)
  | some pnb =>
    simp only [insertBundle, insertNewBundle, hfresh, hget, hpn]
    refine ⟨?_, ?_, ?_, ?_, ?_, ?_, ?_, ?_, ?_, ?_⟩ <;>
      first
        | trivial
        | (rw [countP_updateMeta]
           simp [List.countP_append, hz, List.countP_cons]
           done)
        | (simp [List.countP_append, hzf, List.countP_cons]
           done)
        | (simp only [newDescriptor, hpn]
           exact assocGet_updateMeta_self _ _ (by
              have hget2 := hget
              simp only [newDescriptor, hpn] at hget2
              rw [hget2]
              rfl))

/-- Claim C5, witness: inserting the sample bundle (which carries a
previous-node block naming `dtn://b/x`) twice into an empty store. -/
theorem c5_insert_idempotent_witness :
    (assocGet emptyStore.metadata sampleBundle.id = none ∧
        fileGet emptyStore.files sampleBundle.id = none) ∧
      (((insertBundle (insertBundle emptyStore sampleBundle).1 sampleBundle).1.metadata.countP
            (fun p => p.1 == sampleBundle.id)) = 1 ∧
        (insertBundle (insertBundle emptyStore sampleBundle).1 sampleBundle).1.files
            = (insertBundle emptyStore sampleBundle).1.files ∧
        ((insertBundle emptyStore sampleBundle).1.files.countP
            (fun p => p.1 == sampleBundle.id)) = 1 ∧
        (insertBundle (insertBundle emptyStore sampleBundle).1 sampleBundle).2.retentionConstraints
            = (insertBundle emptyStore sampleBundle).2.retentionConstraints ∧
        (insertBundle (insertBundle emptyStore sampleBundle).1 sampleBundle).2.retain
            = (insertBundle emptyStore sampleBundle).2.retain ∧
        (insertBundle (insertBundle emptyStore sampleBundle).1 sampleBundle).2.dispatch
            = (insertBundle emptyStore sampleBundle).2.dispatch ∧
        (insertBundle (insertBundle emptyStore sampleBundle).1 sampleBundle).2.expires
            = (insertBundle emptyStore sampleBundle).2.expires ∧
        (insertBundle (insertBundle emptyStore sampleBundle).1 sampleBundle).2.serialisedFileName
            = (insertBundle emptyStore sampleBundle).2.serialisedFileName ∧
        (match extensionBlockByType sampleBundle BlockTypePreviousNodeBlock with
          | some pnb =>
            (insertBundle (insertBundle emptyStore sampleBundle).1 sampleBundle).2.alreadySentTo
              = (insertBundle emptyStore sampleBundle).2.alreadySentTo ++
                  [previousNodeEndpoint pnb.value]
          | none =>
            (insertBundle (insertBundle emptyStore sampleBundle).1 sampleBundle).2.alreadySentTo
              = (insertBundle emptyStore sampleBundle).2.alreadySentTo) ∧
        assocGet (insertBundle (insertBundle emptyStore sampleBundle).1 sampleBundle).1.metadata
            sampleBundle.id
          = some { (insertBundle (insertBundle emptyStore sampleBundle).1 sampleBundle).2 with
              bundle := none }) :=
  ⟨⟨by decide, by decide⟩,
    c5_insert_idempotent emptyStore sampleBundle (by decide) (by decide)⟩

/-! ## Claim C10: extension block numbering -/

theorem exists_free_number (used : List Nat) (start : Nat) :
    ∃ k, k < used.length + 1 ∧ (start + k) ∉ used := by
  by_contra hcon
  push_neg at hcon
  have hsub : (Finset.range (used.length + 1)).image (fun k => start + k) ⊆ used.toFinset := by
    intro x hx
    simp only [Finset.mem_image, Finset.mem_range] at hx
    obtain ⟨k, hk, rfl⟩ := hx
    exact List.mem_toFinset.mpr (hcon k hk)
  have hcard : ((Finset.range (used.length + 1)).image (fun k => start + k)).card
      = used.length + 1 := by
    rw [Finset.card_image_of_injective _ (fun a b hab => by omega)]
    exact Finset.card_range _
  have h1 : used.length + 1 ≤ used.toFinset.card := by
    rw [← hcard]
    exact Finset.card_le_card hsub
  have h2 := used.toFinset_card_le
  omega

theorem findFreeNumber_spec (used : List Nat) (fuel start : Nat)
    (h : ∃ k, k < fuel ∧ (start + k) ∉ used) :
    findFreeNumber used start fuel ∉ used ∧ start ≤ findFreeNumber used start fuel ∧
      ∀ m, start ≤ m → m < findFreeNumber used start fuel → m ∈ used := by
  induction fuel generalizing start with
  | zero =>
    obtain ⟨k, hk, _⟩ := h
    omega
  | succ fuel ih =>
    by_cases hs : start ∈ used
    · have h' : ∃ k, k < fuel ∧ (start + 1 + k) ∉ used := by
        obtain ⟨k, hk, hnk⟩ := h
        cases k with
        | zero => exact absurd hs (by simpa using hnk)
        | succ k =>
          refine ⟨k, by omega, ?_⟩
          have harith : start + 1 + k = start + (k + 1) := by omega
          rw [harith]
          exact hnk
      have hrec := ih (start + 1) h'
      simp only [findFreeNumber, if_pos hs]
      refine ⟨hrec.1, by omega, ?_⟩
      intro m hm hlt
      by_cases hm1 : m = start
      · subst hm1; exact hs
      · exact hrec.2.2 m (by omega) hlt
    · simp only [findFreeNumber, if_neg hs]
      exact ⟨hs, Nat.le_refl _, fun m hm hlt => absurd hlt (by omega)⟩

/-- Claim C10 (confirmed): `AddExtensionBlock` overwrites the block's
caller-supplied number with the smallest number — starting from 2 for
non-payload block types, from 1 for payload-typed blocks — that is not
already used by any of the bundle's extension blocks (first three
conjuncts after the permutation), and when the existing numbers are
pairwise distinct they remain so after the call. -/
theorem c10_add_extension_block (b : Bundle) (blk : CanonicalBlock)
    (hnd : (b.extensionBlocks.map (fun cb => cb.blockNumber)).Nodup) :
    ((addExtensionBlock b blk).extensionBlocks.map (fun cb => cb.blockNumber)).Perm
        (b.extensionBlocks.map (fun cb => cb.blockNumber) ++
          [findFreeNumber (b.extensionBlocks.map (fun cb => cb.blockNumber))
            (if blk.typeCode ≠ BlockTypePayloadBlock then 2 else 1)
            ((b.extensionBlocks.map (fun cb => cb.blockNumber)).length + 1)]) ∧
      findFreeNumber (b.extensionBlocks.map (fun cb => cb.blockNumber))
          (if blk.typeCode ≠ BlockTypePayloadBlock then 2 else 1)
          ((b.extensionBlocks.map (fun cb => cb.blockNumber)).length + 1)
        ∉ b.extensionBlocks.map (fun cb => cb.blockNumber) ∧
      (if blk.typeCode ≠ BlockTypePayloadBlock then 2 else 1)
        ≤ findFreeNumber (b.extensionBlocks.map (fun cb => cb.blockNumber))
            (if blk.typeCode ≠ BlockTypePayloadBlock then 2 else 1)
            ((b.extensionBlocks.map (fun cb => cb.blockNumber)).length + 1) ∧
      (∀ m, (if blk.typeCode ≠ BlockTypePayloadBlock then 2 else 1) ≤ m →
        m < findFreeNumber (b.extensionBlocks.map (fun cb => cb.blockNumber))
              (if blk.typeCode ≠ BlockTypePayloadBlock then 2 else 1)
              ((b.extensionBlocks.map (fun cb => cb.blockNumber)).length + 1) →
        m ∈ b.extensionBlocks.map (fun cb => cb.blockNumber)) ∧
      ((addExtensionBlock b blk).extensionBlocks.map (fun cb => cb.blockNumber)).Nodup := by
  have hspec := findFreeNumber_spec (b.extensionBlocks.map (fun cb => cb.blockNumber))
    ((b.extensionBlocks.map (fun cb => cb.blockNumber)).length + 1)
    (if blk.typeCode ≠ BlockTypePayloadBlock then 2 else 1)
    (exists_free_number _ _)
  have hperm : ((addExtensionBlock b blk).extensionBlocks.map
      (fun cb => cb.blockNumber)).Perm
      (b.extensionBlocks.map (fun cb => cb.blockNumber) ++
        [findFreeNumber (b.extensionBlocks.map (fun cb => cb.blockNumber))
          (if blk.typeCode ≠ BlockTypePayloadBlock then 2 else 1)
          ((b.extensionBlocks.map (fun cb => cb.blockNumber)).length + 1)]) := by
    unfold addExtensionBlock Bundle.sortExtensionBlocks
    refine ((List.perm_insertionSort blockNumberLE _).map _).trans ?_
    rw [List.map_append]
    rfl
  refine ⟨hperm, hspec.1, hspec.2.1, hspec.2.2, ?_⟩
  rw [hperm.nodup_iff]
  simp only [List.nodup_append, List.nodup_cons, List.nodup_nil]
  refine ⟨hnd, ⟨by simp, trivial⟩, ?_⟩
  intro x hx
  simp only [List.mem_singleton]
  intro hcon
  subst hcon
  exact absurd hx hspec.1

/-- Claim C10, witness: adding a hop-count block to the sample bundle
(whose single extension block is numbered 2). -/
theorem c10_add_extension_block_witness :
    (sampleBundle.extensionBlocks.map (fun cb => cb.blockNumber)).Nodup ∧
      (((addExtensionBlock sampleBundle hopCountBlockSample).extensionBlocks.map
            (fun cb => cb.blockNumber)).Perm
          (sampleBundle.extensionBlocks.map (fun cb => cb.blockNumber) ++
            [findFreeNumber (sampleBundle.extensionBlocks.map (fun cb => cb.blockNumber))
              (if hopCountBlockSample.typeCode ≠ BlockTypePayloadBlock then 2 else 1)
              ((sampleBundle.extensionBlocks.map (fun cb => cb.blockNumber)).length + 1)]) ∧
        findFreeNumber (sampleBundle.extensionBlocks.map (fun cb => cb.blockNumber))
            (if hopCountBlockSample.typeCode ≠ BlockTypePayloadBlock then 2 else 1)
            ((sampleBundle.extensionBlocks.map (fun cb => cb.blockNumber)).length + 1)
          ∉ sampleBundle.extensionBlocks.map (fun cb => cb.blockNumber) ∧
        (if hopCountBlockSample.typeCode ≠ BlockTypePayloadBlock then 2 else 1)
          ≤ findFreeNumber (sampleBundle.extensionBlocks.map (fun cb => cb.blockNumber))
              (if hopCountBlockSample.typeCode ≠ BlockTypePayloadBlock then 2 else 1)
              ((sampleBundle.extensionBlocks.map (fun cb => cb.blockNumber)).length + 1) ∧
        (∀ m, (if hopCountBlockSample.typeCode ≠ BlockTypePayloadBlock then 2 else 1) ≤ m →
          m < findFreeNumber (sampleBundle.extensionBlocks.map (fun cb => cb.blockNumber))
                (if hopCountBlockSample.typeCode ≠ BlockTypePayloadBlock then 2 else 1)
                ((sampleBundle.extensionBlocks.map (fun cb => cb.blockNumber)).length + 1) →
          m ∈ sampleBundle.extensionBlocks.map (fun cb => cb.blockNumber)) ∧
        ((addExtensionBlock sampleBundle hopCountBlockSample).extensionBlocks.map
            (fun cb => cb.blockNumber)).Nodup) :=
  ⟨by decide, c10_add_extension_block sampleBundle hopCountBlockSample (by decide)⟩

/-! ## CBOR head lemmas -/

theorem beBytes_length (k n : Nat) : (beBytes k n).length = k := by
  induction k generalizing n with
  | zero => rfl
  | succ k ih => simp [beBytes, ih]

theorem beVal_aux (k : Nat) : ∀ (n acc : Nat),
    (beBytes k n).foldl (fun a b => a * 256 + b) acc = acc * 256 ^ k + n % 256 ^ k := by
  induction k with
  | zero => intro n acc; simp [beBytes, Nat.mod_one]
  | succ k ih =>
    intro n acc
    rw [beBytes, List.foldl_append, ih]
    simp only [List.foldl]
    have hmod : n % 256 ^ (k + 1) = 256 ^ k % 256 ^ (k + 1) * 0 + ((n / 256 % 256 ^ k) * 256 + n % 256) := by
      have hpow : (256:Nat) ^ (k + 1) = 256 * 256 ^ k := by ring
      rw [hpow, Nat.mod_mul]
      ring
    rw [hmod]
    ring

theorem beVal_beBytes (k n : Nat) (h : n < 256 ^ k) : beVal (beBytes k n) = n := by
  unfold beVal
  rw [beVal_aux]
  simp [Nat.mod_eq_of_lt h]

theorem takeExact_append (k : Nat) (l r : Bytes) (h : l.length = k) :
    takeExact k (l ++ r) = some (l, r) := by
  subst h
  unfold takeExact
  rw [if_pos (by simp)]
  rw [List.take_left, List.drop_left]

theorem parseHead_cborHead (m n : Nat) (hm : m < 8) (hn : n < 2 ^ 64) (r : Bytes) :
    parseHead (cborHead m n ++ r) = some (m, n, r) := by
  have h256 : (2:Nat) ^ 64 = 256 ^ 8 := by norm_num
  unfold cborHead
  by_cases h1 : n < 24
  · rw [if_pos h1, List.singleton_append]
    have hd : (m * 32 + n) / 32 = m := by omega
    have hmod : (m * 32 + n) % 32 = n := by omega
    simp [parseHead, hd, hmod, h1]
  · rw [if_neg h1]
    by_cases h2 : n < 256
    · rw [if_pos h2, List.cons_append]
      have hd : (m * 32 + 24) / 32 = m := by omega
      have hmod : (m * 32 + 24) % 32 = 24 := by omega
      simp [parseHead, hd, hmod, takeExact_append 1 (beBytes 1 n) r (beBytes_length 1 n),
        beVal_beBytes 1 n (by simpa using h2)]
    · rw [if_neg h2]
      by_cases h3 : n < 65536
      · rw [if_pos h3, List.cons_append]
        have hd : (m * 32 + 25) / 32 = m := by omega
        have hmod : (m * 32 + 25) % 32 = 25 := by omega
        simp [parseHead, hd, hmod, takeExact_append 2 (beBytes 2 n) r (beBytes_length 2 n),
          beVal_beBytes 2 n (by simpa using h3)]
      · rw [if_neg h3]
        by_cases h4 : n < 4294967296
        · rw [if_pos h4, List.cons_append]
          have hd : (m * 32 + 26) / 32 = m := by omega
          have hmod : (m * 32 + 26) % 32 = 26 := by omega
          simp [parseHead, hd, hmod, takeExact_append 4 (beBytes 4 n) r (beBytes_length 4 n),
            beVal_beBytes 4 n (by simpa using h4)]
        · rw [if_neg h4, List.cons_append]
          have hd : (m * 32 + 27) / 32 = m := by omega
          have hmod : (m * 32 + 27) % 32 = 27 := by omega
          simp [parseHead, hd, hmod, takeExact_append 8 (beBytes 8 n) r (beBytes_length 8 n),
            beVal_beBytes 8 n (by rw [← h256]; exact hn)]

/-! ## Endpoint and timestamp codec lemmas -/

theorem allowed_ne_slash (x : Nat) (h : sspAllowedByte x = true) : x ≠ slashByte := by
  intro heq
  subst heq
  exact absurd h (by decide)

theorem takeWhile_node (node demux : Bytes) (h : node.all sspAllowedByte = true) :
    (node ++ slashByte :: demux).takeWhile neSlash = node := by
  induction node with
  | nil =>
    rw [List.nil_append]
    rw [List.takeWhile_cons_of_neg (by decide)]
  | cons x xs ih =>
    simp only [List.all_cons, Bool.and_eq_true] at h
    have hx : neSlash x = true := by
      have := allowed_ne_slash x h.1
      simp [neSlash, this]
    rw [List.cons_append, List.takeWhile_cons_of_pos hx, ih h.2]

theorem dropWhile_node (node demux : Bytes) (h : node.all sspAllowedByte = true) :
    (node ++ slashByte :: demux).dropWhile neSlash = slashByte :: demux := by
  induction node with
  | nil =>
    rw [List.nil_append]
    rw [List.dropWhile_cons_of_neg (by decide)]
  | cons x xs ih =>
    simp only [List.all_cons, Bool.and_eq_true] at h
    have hx : neSlash x = true := by
      have := allowed_ne_slash x h.1
      simp [neSlash, this]
    rw [List.cons_append, List.dropWhile_cons_of_pos hx, ih h.2]

theorem parseDtnSsp_sspOf (e : DtnEndpoint) (hne : e.nodeName ≠ [])
    (hall : e.nodeName.all sspAllowedByte = true) :
    parseDtnSsp e.sspOf = some (e.nodeName, e.demux, false) := by
  have ht := takeWhile_node e.nodeName e.demux hall
  have hd := dropWhile_node e.nodeName e.demux hall
  unfold DtnEndpoint.sspOf
  unfold parseDtnSsp
  rw [if_neg (by simp [noneBytes])]
  simp only [slashByte] at ht hd
  simp [ht, hd, slashByte, hne, hall]

theorem parseEndpoint_marshalEndpoint (e : EndpointID) (he : endpointWF e) (r : Bytes) :
    parseEndpoint (marshalEndpoint e ++ r) = some (e, r) := by
  unfold marshalEndpoint
  by_cases hnone : e.isDtnNone
  · rw [if_pos hnone]
    unfold endpointWF at he
    rw [if_pos hnone] at he
    simp only [List.append_assoc]
    unfold parseEndpoint
    rw [parseHead_cborHead 4 2 (by omega) (by norm_num)]
    simp only [parseHead_cborHead 0 1 (by omega) (by norm_num),
      parseHead_cborHead 0 0 (by omega) (by norm_num)]
    obtain ⟨h1, h2⟩ := he
    cases e
    simp_all
  · rw [if_neg hnone]
    unfold endpointWF at he
    rw [if_neg hnone] at he
    obtain ⟨hne, hall, _, hlen⟩ := he
    simp only [List.append_assoc]
    unfold parseEndpoint
    rw [parseHead_cborHead 4 2 (by omega) (by norm_num)]
    simp only [parseHead_cborHead 0 1 (by omega) (by norm_num),
      parseHead_cborHead 3 e.sspOf.length (by omega) hlen,
      takeExact_append e.sspOf.length e.sspOf r rfl,
      parseDtnSsp_sspOf e hne hall]
    cases e
    simp_all

theorem parseTimestamp_marshalTimestamp (ts : CreationTimestamp)
    (h1 : ts.dtnTime < 2 ^ 64) (h2 : ts.seqNo < 2 ^ 64) (r : Bytes) :
    parseTimestamp (marshalTimestamp ts ++ r) = some (ts, r) := by
  unfold marshalTimestamp
  simp only [List.append_assoc]
  unfold parseTimestamp
  rw [parseHead_cborHead 4 2 (by omega) (by norm_num)]
  simp only [parseHead_cborHead 0 ts.dtnTime (by omega) h1,
    parseHead_cborHead 0 ts.seqNo (by omega) h2]
  simp

/-! ## Primary-block codec lemmas -/

theorem crcCompute_length_le (t : Nat) (d : Bytes) : (crcCompute t d).length ≤ 4 := by
  unfold crcCompute
  split
  · simp [beBytes_length]
  · split
    · simp [beBytes_length]
    · simp

theorem primaryItemCount_lt (pb : PrimaryBlock) : primaryItemCount pb < 24 := by
  unfold primaryItemCount
  split <;> split <;> norm_num

theorem parsePrimaryBlock_marshal (pb : PrimaryBlock) (h : primaryWF pb) (r : Bytes) :
    parsePrimaryBlock (marshalPrimaryBlock pb ++ r)
      = some ({ pb with crc := if pb.crcType = NoCRC then [] else primaryCrcBytes pb }, r) := by
  obtain ⟨hv, hf, hc, hd, hs, hr, ht1, ht2, hl, ho, htd, hfrag⟩ := h
  have hcnt := primaryItemCount_lt pb
  have hclen := crcCompute_length_le pb.crcType
    (primaryBody pb (List.replicate (crcLength pb.crcType) 0))
  have hclen2 : (primaryCrcBytes pb).length < 2 ^ 64 := by
    unfold primaryCrcBytes
    omega
  by_cases hcrc : pb.crcType = NoCRC <;>
    by_cases hfl : hasFlag pb.bundleControlFlags IsFragment = true
  · rw [show marshalPrimaryBlock pb = primaryBody pb [] from by
      unfold marshalPrimaryBlock; rw [if_pos hcrc]]
    unfold primaryBody
    rw [if_pos hfl, if_neg (show ¬ (pb.crcType ≠ NoCRC) by simp [hcrc])]
    simp only [List.append_nil, List.append_assoc]
    unfold parsePrimaryBlock
    rw [parseHead_cborHead 4 (primaryItemCount pb) (by omega) (by omega)]
    simp only [parseHead_cborHead 0 pb.version (by omega) hv,
      parseHead_cborHead 0 pb.bundleControlFlags (by omega) hf,
      parseHead_cborHead 0 pb.crcType (by omega) (by omega),
      parseEndpoint_marshalEndpoint pb.destination hd,
      parseEndpoint_marshalEndpoint pb.sourceNode hs,
      parseEndpoint_marshalEndpoint pb.reportTo hr,
      parseTimestamp_marshalTimestamp pb.creationTimestamp ht1 ht2,
      parseHead_cborHead 0 pb.lifetime (by omega) hl]
    unfold parsePrimaryTail
    rw [if_pos hfl]
    simp only [parseHead_cborHead 0 pb.fragmentOffset (by omega) ho,
      parseHead_cborHead 0 pb.totalDataLength (by omega) htd]
    unfold parsePrimaryAfterFrag
    simp [primaryItemCount, hfl, hcrc]
  · have hfl2 : hasFlag pb.bundleControlFlags IsFragment = false := by
      cases hx : hasFlag pb.bundleControlFlags IsFragment with
      | false => rfl
      | true => exact absurd hx hfl
    obtain ⟨ho0, htd0⟩ := hfrag hfl2
    rw [show marshalPrimaryBlock pb = primaryBody pb [] from by
      unfold marshalPrimaryBlock; rw [if_pos hcrc]]
    unfold primaryBody
    rw [if_neg (show ¬ (hasFlag pb.bundleControlFlags IsFragment = true) by simp [hfl2]),
      if_neg (show ¬ (pb.crcType ≠ NoCRC) by simp [hcrc])]
    simp only [List.append_nil, List.nil_append, List.append_assoc]
    unfold parsePrimaryBlock
    rw [parseHead_cborHead 4 (primaryItemCount pb) (by omega) (by omega)]
    simp only [parseHead_cborHead 0 pb.version (by omega) hv,
      parseHead_cborHead 0 pb.bundleControlFlags (by omega) hf,
      parseHead_cborHead 0 pb.crcType (by omega) (by omega),
      parseEndpoint_marshalEndpoint pb.destination hd,
      parseEndpoint_marshalEndpoint pb.sourceNode hs,
      parseEndpoint_marshalEndpoint pb.reportTo hr,
      parseTimestamp_marshalTimestamp pb.creationTimestamp ht1 ht2,
      parseHead_cborHead 0 pb.lifetime (by omega) hl]
    unfold parsePrimaryTail
    rw [if_neg (show ¬ (hasFlag pb.bundleControlFlags IsFragment = true) by simp [hfl2])]
    unfold parsePrimaryAfterFrag
    simp [primaryItemCount, hfl2, hcrc, ho0, htd0]
  · rw [show marshalPrimaryBlock pb = primaryBody pb (primaryCrcBytes pb) from by
      unfold marshalPrimaryBlock; rw [if_neg hcrc]]
    unfold primaryBody
    rw [if_pos hfl, if_pos (show pb.crcType ≠ NoCRC from hcrc)]
    simp only [List.append_nil, List.append_assoc]
    unfold parsePrimaryBlock
    rw [parseHead_cborHead 4 (primaryItemCount pb) (by omega) (by omega)]
    simp only [parseHead_cborHead 0 pb.version (by omega) hv,
      parseHead_cborHead 0 pb.bundleControlFlags (by omega) hf,
      parseHead_cborHead 0 pb.crcType (by omega) (by omega),
      parseEndpoint_marshalEndpoint pb.destination hd,
      parseEndpoint_marshalEndpoint pb.sourceNode hs,
      parseEndpoint_marshalEndpoint pb.reportTo hr,
      parseTimestamp_marshalTimestamp pb.creationTimestamp ht1 ht2,
      parseHead_cborHead 0 pb.lifetime (by omega) hl]
    unfold parsePrimaryTail
    rw [if_pos hfl]
    simp only [parseHead_cborHead 0 pb.fragmentOffset (by omega) ho,
      parseHead_cborHead 0 pb.totalDataLength (by omega) htd]
    unfold parsePrimaryAfterFrag
    simp only [parseHead_cborHead 2 (primaryCrcBytes pb).length (by omega) hclen2,
      takeExact_append (primaryCrcBytes pb).length (primaryCrcBytes pb) r rfl]
    simp [primaryItemCount, hfl, hcrc, primaryCrcBytes, primaryBody]
  · have hfl2 : hasFlag pb.bundleControlFlags IsFragment = false := by
      cases hx : hasFlag pb.bundleControlFlags IsFragment with
      | false => rfl
      | true => exact absurd hx hfl
    obtain ⟨ho0, htd0⟩ := hfrag hfl2
    rw [show marshalPrimaryBlock pb = primaryBody pb (primaryCrcBytes pb) from by
      unfold marshalPrimaryBlock; rw [if_neg hcrc]]
    unfold primaryBody
    rw [if_neg (show ¬ (hasFlag pb.bundleControlFlags IsFragment = true) by simp [hfl2]),
      if_pos (show pb.crcType ≠ NoCRC from hcrc)]
    simp only [List.append_nil, List.nil_append, List.append_assoc]
    unfold parsePrimaryBlock
    rw [parseHead_cborHead 4 (primaryItemCount pb) (by omega) (by omega)]
    simp only [parseHead_cborHead 0 pb.version (by omega) hv,
      parseHead_cborHead 0 pb.bundleControlFlags (by omega) hf,
      parseHead_cborHead 0 pb.crcType (by omega) (by omega),
      parseEndpoint_marshalEndpoint pb.destination hd,
      parseEndpoint_marshalEndpoint pb.sourceNode hs,
      parseEndpoint_marshalEndpoint pb.reportTo hr,
      parseTimestamp_marshalTimestamp pb.creationTimestamp ht1 ht2,
      parseHead_cborHead 0 pb.lifetime (by omega) hl]
    unfold parsePrimaryTail
    rw [if_neg (show ¬ (hasFlag pb.bundleControlFlags IsFragment = true) by simp [hfl2])]
    unfold parsePrimaryAfterFrag
    simp only [parseHead_cborHead 2 (primaryCrcBytes pb).length (by omega) hclen2,
      takeExact_append (primaryCrcBytes pb).length (primaryCrcBytes pb) r rfl]
    simp [primaryItemCount, hfl2, hcrc, ho0, htd0, primaryCrcBytes, primaryBody]
/-! ## Canonical-block codec lemmas -/

theorem typeCode_lt (v : BlockValue) (hv : valueWF v) : v.blockTypeCode < 2 ^ 64 := by
  cases v with
  | payload _ => norm_num [BlockValue.blockTypeCode, BlockTypePayloadBlock]
  | previousNode _ => norm_num [BlockValue.blockTypeCode, BlockTypePreviousNodeBlock]
  | bundleAge _ => norm_num [BlockValue.blockTypeCode, BlockTypeBundleAgeBlock]
  | hopCount _ _ => norm_num [BlockValue.blockTypeCode, BlockTypeHopCountBlock]
  | unknown t d => exact hv.2.2.2.2

theorem decodeValue_valueBytes (v : BlockValue) (hv : valueWF v)
    (hlen : (valueBytes v).length < 2 ^ 64) :
    decodeValue v.blockTypeCode (valueBytes v) = some v := by
  cases v with
  | payload d => rfl
  | previousNode e =>
    have hrt := parseEndpoint_marshalEndpoint e hv []
    rw [List.append_nil] at hrt
    simp only [BlockValue.blockTypeCode, valueBytes]
    unfold decodeValue
    rw [if_neg (by decide), if_pos rfl]
    simp [hrt]
  | bundleAge n =>
    have hage : n < 2 ^ 64 := hv
    have hrt := parseHead_cborHead 0 n (by omega) hage []
    rw [List.append_nil] at hrt
    simp only [BlockValue.blockTypeCode, valueBytes]
    unfold decodeValue
    rw [if_neg (by decide), if_neg (by decide), if_pos rfl]
    simp [hrt]
  | hopCount l c =>
    obtain ⟨hl, hc⟩ := hv
    have h1 := parseHead_cborHead 4 2 (by omega) (by norm_num)
      (cborHead 0 l ++ cborHead 0 c)
    have h2 := parseHead_cborHead 0 l (by omega) hl (cborHead 0 c)
    have h3 := parseHead_cborHead 0 c (by omega) hc []
    rw [List.append_nil] at h3
    simp only [BlockValue.blockTypeCode, valueBytes]
    unfold decodeValue
    rw [if_neg (by decide), if_neg (by decide), if_neg (by decide), if_pos rfl]
    simp only [List.append_assoc]
    rw [h1]
    simp [h2, h3]
  | unknown t d =>
    obtain ⟨h1, h6, h7, h10, _⟩ := hv
    simp only [BlockValue.blockTypeCode, valueBytes]
    unfold decodeValue
    rw [if_neg h1, if_neg h6, if_neg h7, if_neg h10]

theorem parseCanonicalBlock_marshal (cb : CanonicalBlock) (h : canonicalWF cb) (r : Bytes) :
    parseCanonicalBlock (marshalCanonicalBlock cb ++ r) = some (cb, r) := by
  obtain ⟨hn, hf, hc, hv, hlen⟩ := h
  have htc := typeCode_lt cb.value hv
  have hdec := decodeValue_valueBytes cb.value hv hlen
  have hclen := crcCompute_length_le cb.crcType
    (canonicalBody cb (List.replicate (crcLength cb.crcType) 0))
  have hclen2 : (canonicalCrcBytes cb).length < 2 ^ 64 := by
    unfold canonicalCrcBytes
    omega
  by_cases hcrc : cb.crcType = NoCRC
  · rw [show marshalCanonicalBlock cb = canonicalBody cb [] from by
      unfold marshalCanonicalBlock; rw [if_pos hcrc]]
    unfold canonicalBody
    rw [if_neg (show ¬ (cb.crcType ≠ NoCRC) by simp [hcrc]),
      if_neg (show ¬ (cb.crcType ≠ NoCRC) by simp [hcrc])]
    simp only [List.append_nil, List.append_assoc]
    unfold parseCanonicalBlock
    rw [parseHead_cborHead 4 5 (by omega) (by norm_num)]
    simp only [parseHead_cborHead 0 cb.typeCode (by omega) (by
        unfold CanonicalBlock.typeCode; omega),
      parseHead_cborHead 0 cb.blockNumber (by omega) hn,
      parseHead_cborHead 0 cb.blockControlFlags (by omega) hf,
      parseHead_cborHead 0 cb.crcType (by omega) (by omega),
      parseHead_cborHead 2 (valueBytes cb.value).length (by omega) hlen,
      takeExact_append (valueBytes cb.value).length (valueBytes cb.value) r rfl]
    unfold CanonicalBlock.typeCode
    simp only [hdec]
    unfold parseCanonicalTail
    simp [hcrc]
    rw [← hcrc]
  · rw [show marshalCanonicalBlock cb = canonicalBody cb (canonicalCrcBytes cb) from by
      unfold marshalCanonicalBlock; rw [if_neg hcrc]]
    unfold canonicalBody
    rw [if_pos (show cb.crcType ≠ NoCRC from hcrc),
      if_pos (show cb.crcType ≠ NoCRC from hcrc)]
    simp only [List.append_nil, List.append_assoc]
    unfold parseCanonicalBlock
    rw [parseHead_cborHead 4 6 (by omega) (by norm_num)]
    simp only [parseHead_cborHead 0 cb.typeCode (by omega) (by
        unfold CanonicalBlock.typeCode; omega),
      parseHead_cborHead 0 cb.blockNumber (by omega) hn,
      parseHead_cborHead 0 cb.blockControlFlags (by omega) hf,
      parseHead_cborHead 0 cb.crcType (by omega) (by omega),
      parseHead_cborHead 2 (valueBytes cb.value).length (by omega) hlen,
      takeExact_append (valueBytes cb.value).length (valueBytes cb.value)
        (cborHead 2 (canonicalCrcBytes cb).length ++ (canonicalCrcBytes cb ++ r)) rfl]
    unfold CanonicalBlock.typeCode
    simp only [hdec]
    unfold parseCanonicalTail
    simp only [parseHead_cborHead 2 (canonicalCrcBytes cb).length (by omega) hclen2,
      takeExact_append (canonicalCrcBytes cb).length (canonicalCrcBytes cb) r rfl]
    simp [hcrc, canonicalCrcBytes, canonicalBody]

/-! ## Bundle codec lemmas -/

theorem marshalCanonicalBlock_head (cb : CanonicalBlock) (x : Bytes) :
    (marshalCanonicalBlock cb ++ x).head? =
      some (if cb.crcType = NoCRC then 133 else 134) := by
  unfold marshalCanonicalBlock canonicalBody
  by_cases h : cb.crcType = NoCRC
  · simp [h, cborHead]
  · simp [h, cborHead]

theorem marshalCanonicalBlock_length_pos (cb : CanonicalBlock) :
    1 ≤ (marshalCanonicalBlock cb).length := by
  cases hm : marshalCanonicalBlock cb with
  | nil =>
    have hh := marshalCanonicalBlock_head cb []
    rw [hm] at hh
    simp at hh
  | cons a t => simp

theorem flatten_marshal_length (bls : List CanonicalBlock) :
    bls.length ≤ ((bls.map marshalCanonicalBlock).flatten).length := by
  induction bls with
  | nil => simp
  | cons b t ih =>
    have h1 := marshalCanonicalBlock_length_pos b
    simp only [List.map_cons, List.flatten_cons, List.length_append, List.length_cons]
    omega

theorem parseBlocksLoopGo_succ (fuel : Nat) (bytes : Bytes) (ext : List CanonicalBlock)
    (pay : CanonicalBlock) :
    parseBlocksLoopGo (fuel + 1) bytes ext pay =
      if bytes.head? = some BreakCode then (ext, pay, none, bytes.tail)
      else
        match parseCanonicalBlock bytes with
        | none => (ext, pay, some [99], bytes)
        | some (cb, rest) =>
          if cb.typeCode = BlockTypePayloadBlock then parseBlocksLoopGo fuel rest ext cb
          else parseBlocksLoopGo fuel rest (ext ++ [cb]) pay := rfl

/-- The canonical-block loop of `UnmarshalCbor` consumes the encodings of
the extension blocks and of the payload block, stops at the break code and
returns them in order, provided the fuel covers every block plus the
break-code step. -/
theorem parseBlocksLoopGo_encoded (pb : CanonicalBlock) (hpwf : canonicalWF pb)
    (hpt : pb.typeCode = BlockTypePayloadBlock) (r : Bytes) :
    ∀ (bls : List CanonicalBlock) (ext : List CanonicalBlock) (pay0 : CanonicalBlock)
      (fuel : Nat),
      (∀ cb ∈ bls, canonicalWF cb ∧ cb.typeCode ≠ BlockTypePayloadBlock) →
      bls.length + 2 ≤ fuel →
      parseBlocksLoopGo fuel
          ((bls.map marshalCanonicalBlock).flatten ++
            (marshalCanonicalBlock pb ++ (BreakCode :: r)))
          ext pay0
        = (ext ++ bls, pb, none, r) := by
  intro bls
  induction bls with
  | nil =>
    intro ext pay0 fuel _ hfuel
    obtain ⟨f, rfl⟩ : ∃ f, fuel = f + 1 + 1 := ⟨fuel - 2, by omega⟩
    simp only [List.map_nil, List.flatten_nil, List.nil_append]
    rw [parseBlocksLoopGo_succ]
    rw [if_neg (show ¬ ((marshalCanonicalBlock pb ++ (BreakCode :: r)).head? =
        some BreakCode) from by
      rw [marshalCanonicalBlock_head]
      by_cases h : pb.crcType = NoCRC <;> simp [h, BreakCode])]
    simp only [parseCanonicalBlock_marshal pb hpwf (BreakCode :: r)]
    rw [if_pos hpt, parseBlocksLoopGo_succ,
      if_pos (show (BreakCode :: r).head? = some BreakCode from rfl)]
    simp
  | cons b bls ih =>
    intro ext pay0 fuel hwf hfuel
    obtain ⟨hbwf, hbt⟩ := hwf b (by simp)
    obtain ⟨f, rfl⟩ : ∃ f, fuel = f + 1 := ⟨fuel - 1, by omega⟩
    simp only [List.map_cons, List.flatten_cons, List.append_assoc]
    rw [parseBlocksLoopGo_succ]
    rw [if_neg (show ¬ ((marshalCanonicalBlock b ++
        ((bls.map marshalCanonicalBlock).flatten ++
          (marshalCanonicalBlock pb ++ (BreakCode :: r)))).head? = some BreakCode) from by
      rw [marshalCanonicalBlock_head]
      by_cases h : b.crcType = NoCRC <;> simp [h, BreakCode])]
    simp only [parseCanonicalBlock_marshal b hbwf
      ((bls.map marshalCanonicalBlock).flatten ++
        (marshalCanonicalBlock pb ++ (BreakCode :: r)))]
    rw [if_neg hbt]
    rw [ih (ext ++ [b]) pay0 f (fun cb hcb => hwf cb (by simp [hcb])) (by
      simp only [List.length_cons] at hfuel
      omega)]
    simp

/-- `CheckValid` never inspects the primary block's CRC field. -/
theorem checkValid_crc_irrelevant (now : Nat) (b : Bundle) (c : Bytes) :
    checkValidBundle now
        { primaryBlock := { b.primaryBlock with crc := c }
          extensionBlocks := b.extensionBlocks
          payloadBlock := b.payloadBlock }
      = checkValidBundle now b := rfl

/-! ## Claim C4: codec round-trip -/

/-- Claim C4: for every well-formed bundle accepted by `CheckValid`,
`UnmarshalCbor` applied to the `MarshalCbor` serialization succeeds, and
the decoded bundle carries the same canonical block list and the same
payload block, byte for byte. -/
theorem c4_codec_roundtrip (now : Nat) (b : Bundle) (hwf : bundleWF b)
    (hvalid : checkValidBundle now b = true) :
    ∃ b2, unmarshalBundle now (marshalBundle b) = Except.ok b2 ∧
      b2.extensionBlocks = b.extensionBlocks ∧ b2.payloadBlock = b.payloadBlock := by
  obtain ⟨hp, hextwf, hpaywf, hpt, hnp⟩ := hwf
  have hflat := flatten_marshal_length b.extensionBlocks
  have hpay1 := marshalCanonicalBlock_length_pos b.payloadBlock
  have hloop := parseBlocksLoopGo_encoded b.payloadBlock hpaywf hpt []
    b.extensionBlocks [] zeroCanonicalBlock
    (((b.extensionBlocks.map marshalCanonicalBlock).flatten ++
      (marshalCanonicalBlock b.payloadBlock ++ (BreakCode :: []))).length + 1)
    (fun cb hcb => ⟨hextwf cb hcb, hnp cb hcb⟩)
    (by simp only [List.length_append, List.length_cons, List.length_nil]; omega)
  rw [List.nil_append] at hloop
  have hmb : marshalBundle b = IndefiniteArray ::
      (marshalPrimaryBlock b.primaryBlock ++
        ((b.extensionBlocks.map marshalCanonicalBlock).flatten ++
          (marshalCanonicalBlock b.payloadBlock ++ (BreakCode :: [])))) := by
    unfold marshalBundle
    simp
  refine ⟨{ primaryBlock := { b.primaryBlock with crc := if b.primaryBlock.crcType = NoCRC then [] else primaryCrcBytes b.primaryBlock }, extensionBlocks := b.extensionBlocks, payloadBlock := b.payloadBlock }, ?_, rfl, rfl⟩
  unfold unmarshalBundle
  rw [hmb]
  unfold parseBundleGo
  simp only [List.head?_cons, List.tail_cons, if_true]
  simp only [parsePrimaryBlock_marshal b.primaryBlock hp
    ((b.extensionBlocks.map marshalCanonicalBlock).flatten ++
      (marshalCanonicalBlock b.payloadBlock ++ (BreakCode :: [])))]
  simp only [hloop]
  rw [checkValid_crc_irrelevant]
  rw [if_pos hvalid]

/-- Claim C4, witness: the sample bundle is well-formed and valid at DTN
time 0, and decoding its encoding succeeds with the same blocks. -/
theorem c4_codec_roundtrip_witness :
    bundleWF sampleBundle ∧ checkValidBundle 0 sampleBundle = true ∧
      ∃ b2, unmarshalBundle 0 (marshalBundle sampleBundle) = Except.ok b2 ∧
        b2.extensionBlocks = sampleBundle.extensionBlocks ∧
        b2.payloadBlock = sampleBundle.payloadBlock :=
  ⟨by decide, by decide, c4_codec_roundtrip 0 sampleBundle (by decide) (by decide)⟩

/-! ## Claim C3: fragmentation

Helper lemmas about `AddExtensionBlock` on bundles whose extension blocks
are numbered `2, 3, ...` in order (as `Fragment` and
`ReassembleFragments` produce them), about the control flags, and about
the fragment-construction loop. -/

theorem findFreeNumber_zero (used : List Nat) (start : Nat) :
    findFreeNumber used start 0 = start := rfl

theorem findFreeNumber_succ (used : List Nat) (start fuel : Nat) :
    findFreeNumber used start (fuel + 1) =
      if start ∈ used then findFreeNumber used (start + 1) fuel else start := rfl

theorem findFreeNumber_range'_aux : ∀ (fuel j p : Nat), p ≤ j + fuel →
    findFreeNumber (List.range' 2 p) (2 + j) (fuel + 1) = 2 + max p j := by
  intro fuel
  induction fuel with
  | zero =>
    intro j p hp
    rw [findFreeNumber_succ,
      if_neg (show ¬ ((2 + j) ∈ List.range' 2 p) by rw [List.mem_range'_1]; omega)]
    omega
  | succ f ihf =>
    intro j p hp
    rw [findFreeNumber_succ]
    by_cases hj : j < p
    · rw [if_pos (show (2 + j) ∈ List.range' 2 p by rw [List.mem_range'_1]; omega)]
      rw [show 2 + j + 1 = 2 + (j + 1) from by omega, ihf (j + 1) p (by omega)]
      omega
    · rw [if_neg (show ¬ ((2 + j) ∈ List.range' 2 p) by rw [List.mem_range'_1]; omega)]
      omega

theorem findFreeNumber_full (p : Nat) :
    findFreeNumber (List.range' 2 p) 2 (p + 1) = 2 + p := by
  have h := findFreeNumber_range'_aux p 0 p (by omega)
  simpa using h

theorem pairwise_le_range' (s n : Nat) : (List.range' s n).Pairwise (· ≤ ·) := by
  induction n generalizing s with
  | zero => simp
  | succ n ih =>
    rw [List.range'_succ]
    refine List.Pairwise.cons ?_ (ih (s + 1))
    intro m hm
    rw [List.mem_range'_1] at hm
    omega

theorem sorted_of_map_range' (l : List CanonicalBlock) (s n : Nat)
    (h : l.map (fun cb => cb.blockNumber) = List.range' s n) :
    List.Sorted blockNumberLE l := by
  have hp : (l.map (fun cb => cb.blockNumber)).Pairwise (· ≤ ·) := by
    rw [h]; exact pairwise_le_range' s n
  rw [List.pairwise_map] at hp
  exact hp

/-- On a bundle whose extension blocks are numbered `2, ..., |ext|+1`,
`AddExtensionBlock` appends the new non-payload block with the next
number. -/
theorem addExtensionBlock_shape (B : Bundle) (r : CanonicalBlock)
    (hr : r.typeCode ≠ BlockTypePayloadBlock)
    (hpre : B.extensionBlocks.map (fun cb => cb.blockNumber) =
      List.range' 2 B.extensionBlocks.length) :
    addExtensionBlock B r =
      { B with extensionBlocks :=
          B.extensionBlocks ++ [{ r with blockNumber := 2 + B.extensionBlocks.length }] } := by
  have hsorted : List.Sorted blockNumberLE
      (B.extensionBlocks ++ [{ r with blockNumber := 2 + B.extensionBlocks.length }]) := by
    apply sorted_of_map_range' _ 2 (B.extensionBlocks.length + 1)
    rw [List.map_append, hpre, show List.range' 2 (B.extensionBlocks.length + 1)
      = List.range' 2 B.extensionBlocks.length ++ [2 + B.extensionBlocks.length] from by
        rw [List.range'_concat]; norm_num]
    rfl
  unfold addExtensionBlock
  simp only [if_pos hr]
  rw [hpre]
  simp only [List.length_range']
  rw [findFreeNumber_full B.extensionBlocks.length]
  unfold Bundle.sortExtensionBlocks
  simp only []
  rw [List.Sorted.insertionSort_eq hsorted]

/-- `AddExtensionBlock` on a block that already carries the next number
is a plain append. -/
theorem addExtensionBlock_next (B : Bundle) (r : CanonicalBlock)
    (hr : r.typeCode ≠ BlockTypePayloadBlock)
    (hpre : B.extensionBlocks.map (fun cb => cb.blockNumber) =
      List.range' 2 B.extensionBlocks.length)
    (hrn : r.blockNumber = 2 + B.extensionBlocks.length) :
    addExtensionBlock B r = { B with extensionBlocks := B.extensionBlocks ++ [r] } := by
  rw [addExtensionBlock_shape B r hr hpre, ← hrn]

/-- Folding `AddExtensionBlock` over blocks that already carry the
consecutive numbers continuing the bundle's own is the identity on the
block list (the numbers are re-assigned to their present values). -/
theorem foldl_addExtensionBlock_id (rest : List CanonicalBlock) :
    ∀ (B : Bundle),
      (∀ cb ∈ rest, cb.typeCode ≠ BlockTypePayloadBlock) →
      ((B.extensionBlocks ++ rest).map (fun cb => cb.blockNumber) =
        List.range' 2 (B.extensionBlocks.length + rest.length)) →
      rest.foldl addExtensionBlock B = { B with extensionBlocks := B.extensionBlocks ++ rest } := by
  induction rest with
  | nil =>
    intro B _ _
    simp only [List.foldl_nil, List.append_nil]
  | cons r rest ih =>
    intro B hnp hnum
    have hsplit : B.extensionBlocks.map (fun cb => cb.blockNumber) =
        List.range' 2 B.extensionBlocks.length ∧
        (r :: rest).map (fun cb => cb.blockNumber) =
          List.range' (2 + B.extensionBlocks.length) (rest.length + 1) := by
      have h1 : List.range' 2 (B.extensionBlocks.length + (rest.length + 1)) =
          List.range' 2 B.extensionBlocks.length ++
            List.range' (2 + B.extensionBlocks.length) (rest.length + 1) := by
        rw [show (2:Nat) + B.extensionBlocks.length = 2 + 1 * B.extensionBlocks.length from by
          omega]
        rw [List.range'_append]
        congr 1
        omega
      rw [List.map_append, List.length_cons, h1] at hnum
      exact List.append_inj hnum (by simp)
    have hrn : r.blockNumber = 2 + B.extensionBlocks.length := by
      have h2 := hsplit.2
      rw [List.map_cons, List.range'_succ] at h2
      exact (List.cons.injEq _ _ _ _).mp h2 |>.1
    rw [List.foldl_cons,
      addExtensionBlock_next B r (hnp r (by simp)) hsplit.1 hrn,
      ih { B with extensionBlocks := B.extensionBlocks ++ [r] }
        (fun cb hcb => hnp cb (by simp [hcb]))
        (by
          simp only [List.append_assoc, List.singleton_append, List.length_append,
            List.length_singleton]
          rw [show B.extensionBlocks.length + 1 + rest.length
            = B.extensionBlocks.length + (rest.length + 1) from by omega]
          exact hnum)]
    simp

theorem foldl_addExtensionBlock_primary (rest : List CanonicalBlock) :
    ∀ (B : Bundle), (rest.foldl addExtensionBlock B).primaryBlock = B.primaryBlock := by
  induction rest with
  | nil => intro B; rfl
  | cons r rest ih => intro B; rw [List.foldl_cons, ih]; rfl

theorem hasFlag_setFlag_isFragment (f : Nat) :
    hasFlag (setFlag f IsFragment) IsFragment = true := by
  unfold hasFlag setFlag IsFragment
  simp [Nat.and_one_is_mod]

theorem clearFlag_setFlag_isFragment (f : Nat) (hf : f < 2 ^ 64)
    (h : hasFlag f IsFragment = false) :
    clearFlag (setFlag f IsFragment) IsFragment = f := by
  unfold hasFlag IsFragment at h
  unfold clearFlag setFlag IsFragment
  have h0 : f.testBit 0 = false := by
    simp [Nat.and_one_is_mod] at h
    rw [Nat.testBit_zero]
    simp
    omega
  have h1 : ∀ i, (1 : Nat).testBit i = decide (i = 0) := by
    intro i
    rw [show (1:Nat) = 2 ^ 0 from rfl, Nat.testBit_two_pow]
    simp [eq_comm]
  apply Nat.eq_of_testBit_eq
  intro i
  simp only [Nat.testBit_and, Nat.testBit_or, Nat.testBit_xor,
    Nat.testBit_two_pow_sub_one, h1]
  rcases Nat.lt_or_ge i 64 with hi | hi
  · rcases Nat.eq_zero_or_pos i with hz | hz
    · subst hz
      simp [h0]
    · simp [hi, Nat.pos_iff_ne_zero.mp hz]
  · have hfb : f.testBit i = false :=
      Nat.testBit_lt_two_pow (lt_of_lt_of_le hf (Nat.pow_le_pow_right (by norm_num) hi))
    simp [hfb, Nat.not_lt.mpr hi]
    omega

theorem fragLoop_zero (b : Bundle) (data : Bytes) (mtu eF eO now i : Nat) :
    fragLoop b data mtu eF eO now i 0 = .error [102] := rfl

theorem fragLoop_succ (b : Bundle) (data : Bytes) (mtu eF eO now i fuel : Nat) :
    fragLoop b data mtu eF eO now i (fuel + 1) =
      if i < data.length then
        if mtu ≤ 2 + (fragmentPrimaryBlock b.primaryBlock i data.length).2 +
            (if i = 0 then eF else eO) then .error [111]
        else if checkValidBundle now (fragAt b data mtu eF eO i) then
          match fragLoop b data mtu eF eO now
              (i + (mtu - (2 + (fragmentPrimaryBlock b.primaryBlock i data.length).2 +
                (if i = 0 then eF else eO)))) fuel with
          | .error e => .error e
          | .ok rest => .ok (fragAt b data mtu eF eO i :: rest)
        else .error [118]
      else .ok [] := rfl

theorem fragAt_primary (b : Bundle) (data : Bytes) (mtu eF eO i : Nat) :
    (fragAt b data mtu eF eO i).primaryBlock =
      (fragmentPrimaryBlock b.primaryBlock i data.length).1 := by
  unfold fragAt
  simp only []
  rw [foldl_addExtensionBlock_primary]

theorem fragAt_payloadData (b : Bundle) (data : Bytes) (mtu eF eO i : Nat) :
    payloadDataOf (fragAt b data mtu eF eO i) =
      (data.take (min (i + (mtu - (2 + (fragmentPrimaryBlock b.primaryBlock i data.length).2 +
        (if i = 0 then eF else eO)))) data.length)).drop i := rfl

theorem contiguityScan_cons (f : Bundle) (rest : List Bundle) (lastIndex : Nat) :
    contiguityScan (f :: rest) lastIndex =
      if !hasFlag f.primaryBlock.bundleControlFlags IsFragment then .error [110]
      else if f.primaryBlock.fragmentOffset > lastIndex then .error [103]
      else contiguityScan rest
        (f.primaryBlock.fragmentOffset + (payloadDataOf f).length) := rfl

theorem mergePayloadAux_cons (f : Bundle) (rest : List Bundle) (lastIndex : Nat) (data : Bytes) :
    mergePayloadAux (f :: rest) lastIndex data =
      mergePayloadAux rest (f.primaryBlock.fragmentOffset + (payloadDataOf f).length)
        (data ++ (payloadDataOf f).drop (lastIndex - f.primaryBlock.fragmentOffset)) := rfl

/-- When the fragment loop succeeds starting at payload position `i`, the
produced fragments start with the fragment at `i`, all carry `IsFragment`
with non-decreasing offsets, they pass the contiguity scan ending at the
payload length, and merging their payload slices yields the remaining
payload. -/
theorem fragLoop_reassembly (b : Bundle) (data : Bytes) (mtu eF eO now : Nat) :
    ∀ (fuel i : Nat) (frags : List Bundle),
      fragLoop b data mtu eF eO now i fuel = .ok frags →
      i < data.length →
      (∃ rest, frags = fragAt b data mtu eF eO i :: rest) ∧
      (∀ f ∈ frags, i ≤ f.primaryBlock.fragmentOffset ∧
        hasFlag f.primaryBlock.bundleControlFlags IsFragment = true) ∧
      List.Pairwise fragOffsetLE frags ∧
      contiguityScan frags i = Except.ok data.length ∧
      (∀ acc, mergePayloadAux frags i acc = acc ++ data.drop i) := by
  intro fuel
  induction fuel with
  | zero =>
    intro i frags h hi
    rw [fragLoop_zero] at h
    exact absurd h (by simp)
  | succ fuel ih =>
    intro i frags h hi
    rw [fragLoop_succ, if_pos hi] at h
    by_cases hov : mtu ≤ 2 + (fragmentPrimaryBlock b.primaryBlock i data.length).2 +
        (if i = 0 then eF else eO)
    · rw [if_pos hov] at h
      exact absurd h (by simp)
    rw [if_neg hov] at h
    by_cases hcv : checkValidBundle now (fragAt b data mtu eF eO i) = true
    swap
    · rw [if_neg hcv] at h
      exact absurd h (by simp)
    rw [if_pos hcv] at h
    set i2 := i + (mtu - (2 + (fragmentPrimaryBlock b.primaryBlock i data.length).2 +
      (if i = 0 then eF else eO))) with hi2
    cases hrec : fragLoop b data mtu eF eO now i2 fuel with
    | error e =>
      rw [hrec] at h
      exact absurd h (by simp)
    | ok rest =>
      rw [hrec] at h
      simp only [Except.ok.injEq] at h
      subst h
      have hpllb : i < i2 := by
        rw [hi2]
        omega
      have hoffAt : (fragAt b data mtu eF eO i).primaryBlock.fragmentOffset = i := by
        rw [fragAt_primary]
        rfl
      have hflagAt : hasFlag
          (fragAt b data mtu eF eO i).primaryBlock.bundleControlFlags IsFragment = true := by
        rw [fragAt_primary]
        exact hasFlag_setFlag_isFragment b.primaryBlock.bundleControlFlags
      have hlenAt : (payloadDataOf (fragAt b data mtu eF eO i)).length =
          min i2 data.length - i := by
        simp only [fragAt_payloadData, List.length_drop, List.length_take]
        omega
      by_cases hnext : i2 < data.length
      · obtain ⟨⟨rest2, hrest2⟩, hmem, hpw, hscan, hmerge⟩ := ih i2 rest hrec hnext
        have hmin : min i2 data.length = i2 := by omega
        refine ⟨⟨rest, rfl⟩, ?_, ?_, ?_, ?_⟩
        · intro f hf
          rcases List.mem_cons.mp hf with hf0 | hfr
          · subst hf0
            exact ⟨by simp [hoffAt], hflagAt⟩
          · obtain ⟨h1, h2⟩ := hmem f hfr
            exact ⟨by omega, h2⟩
        · refine List.Pairwise.cons ?_ hpw
          intro g hg
          have hg1 := (hmem g hg).1
          unfold fragOffsetLE
          rw [hoffAt]
          omega
        · rw [contiguityScan_cons, hoffAt, hlenAt, hflagAt]
          rw [if_neg (by simp)]
          rw [if_neg (by omega)]
          rw [show i + (min i2 data.length - i) = i2 from by omega]
          exact hscan
        · intro acc
          rw [mergePayloadAux_cons, hoffAt, hlenAt]
          rw [Nat.sub_self, List.drop_zero]
          rw [show i + (min i2 data.length - i) = i2 from by omega]
          rw [hmerge (acc ++ payloadDataOf (fragAt b data mtu eF eO i))]
          rw [fragAt_payloadData]
          rw [List.append_assoc]
          congr 1
          rw [show min (i + (mtu - (2 + (fragmentPrimaryBlock b.primaryBlock i
              data.length).2 + (if i = 0 then eF else eO)))) data.length = i2 from by omega]
          conv_rhs => rw [← List.take_append_drop i2 data]
          rw [List.drop_append_eq_append_drop]
          rw [show i - (data.take i2).length = 0 from by
            simp only [List.length_take]
            omega]
          rw [List.drop_zero]
      · have hrest_nil : rest = [] := by
          clear ih
          cases fuel with
          | zero =>
            rw [fragLoop_zero] at hrec
            exact absurd hrec (by simp)
          | succ f2 =>
            rw [fragLoop_succ, if_neg hnext] at hrec
            simp only [Except.ok.injEq] at hrec
            exact hrec.symm
        subst hrest_nil
        refine ⟨⟨[], rfl⟩, ?_, ?_, ?_, ?_⟩
        · intro f hf
          rcases List.mem_cons.mp hf with hf0 | hfr
          · subst hf0
            exact ⟨by simp [hoffAt], hflagAt⟩
          · exact absurd hfr (by simp)
        · simp
        · rw [contiguityScan_cons, hoffAt, hlenAt, hflagAt]
          rw [if_neg (by simp)]
          rw [if_neg (by omega)]
          rw [show i + (min i2 data.length - i) = data.length from by omega]
          rfl
        · intro acc
          rw [mergePayloadAux_cons, hoffAt, hlenAt]
          rw [Nat.sub_self, List.drop_zero]
          show acc ++ payloadDataOf (fragAt b data mtu eF eO i) = acc ++ data.drop i
          congr 1
          rw [fragAt_payloadData]
          rw [show min (i + (mtu - (2 + (fragmentPrimaryBlock b.primaryBlock i
              data.length).2 + (if i = 0 then eF else eO)))) data.length
            = data.length from by omega]
          rw [List.take_length]

/-- The first fragment replicates every extension block; under the
consecutive numbering the re-addition is the identity. -/
theorem fragAt_ext_zero (b : Bundle) (data : Bytes) (mtu eF eO : Nat)
    (hnp : ∀ cb ∈ b.extensionBlocks, cb.typeCode ≠ BlockTypePayloadBlock)
    (hnum : b.extensionBlocks.map (fun cb => cb.blockNumber) =
      List.range' 2 b.extensionBlocks.length) :
    (fragAt b data mtu eF eO 0).extensionBlocks = b.extensionBlocks := by
  have hfil : b.extensionBlocks.filter
      (fun cb => (0 : Nat) = 0 ∨ hasFlag cb.blockControlFlags ReplicateBlock) =
      b.extensionBlocks := List.filter_eq_self.mpr (fun a _ => by simp)
  unfold fragAt
  rw [hfil]
  simp only []
  rw [foldl_addExtensionBlock_id b.extensionBlocks
    { primaryBlock := (fragmentPrimaryBlock b.primaryBlock 0 data.length).1
      extensionBlocks := [], payloadBlock := zeroCanonicalBlock }
    hnp (by simpa using hnum)]
  simp

theorem prepareReassembly_eq (bs : List Bundle) (f0 : Bundle) (rest : List Bundle) (n : Nat)
    (hbs : bs = f0 :: rest)
    (hsort : sortFragments bs = bs)
    (hscan : contiguityScan bs 0 = .ok n)
    (htdl : f0.primaryBlock.totalDataLength = n) :
    prepareReassembly bs = .ok bs := by
  subst hbs
  unfold prepareReassembly
  simp only [hsort, hscan]
  rw [if_neg (by simp [htdl])]

theorem reassembleFragments_eq (now : Nat) (bs : List Bundle) (f0 : Bundle)
    (rest : List Bundle) (hbs : bs = f0 :: rest)
    (hprep : prepareReassembly bs = .ok bs) :
    reassembleFragments now bs =
      (let pb : PrimaryBlock :=
        { f0.primaryBlock with
          bundleControlFlags := clearFlag f0.primaryBlock.bundleControlFlags IsFragment
          fragmentOffset := 0
          totalDataLength := 0
          crc := [] }
       let base : Bundle :=
        { primaryBlock := pb, extensionBlocks := [], payloadBlock := zeroCanonicalBlock }
       let withExt := f0.extensionBlocks.foldl addExtensionBlock base
       let payload := mergePayloadAux bs 0 []
       let cb := (NewCanonicalBlock 1 f0.payloadBlock.blockControlFlags
         (.payload payload)).setCRCType f0.payloadBlock.crcType
       let result : Bundle := { withExt with payloadBlock := cb }
       if checkValidBundle now result then .ok result else .error [118]) := by
  subst hbs
  unfold reassembleFragments
  rw [hprep]

/-- Claim C3, amended: for a well-formed, valid bundle (payload-typed
payload block, consecutive extension-block numbers, fragmentation not
forbidden, not already a fragment), whenever `Fragment` returns at least
two fragments, `ReassembleFragments` of them succeeds and returns the
bundle with payload and blocks restored and the primary CRC field
cleared; and with a nonempty payload, an MTU not exceeding the
first-fragment overhead makes `Fragment` fail.  (When only a single
fragment would arise, `Fragment` returns the original unfragmented
bundle itself, on which `ReassembleFragments` fails — the claim's
unrestricted round trip is refuted by `c3_counterexample`.) -/
theorem c3_fragmentation (now : Nat) (b : Bundle) (mtu : Nat) (data : Bytes)
    (hdata : b.payloadBlock.value = BlockValue.payload data)
    (hwf : bundleWF b)
    (hvalid : checkValidBundle now b = true)
    (hmnf : hasFlag b.primaryBlock.bundleControlFlags MustNotFragmented = false)
    (hnotfrag : hasFlag b.primaryBlock.bundleControlFlags IsFragment = false)
    (hnum : b.extensionBlocks.map (fun cb => cb.blockNumber) =
      List.range' 2 b.extensionBlocks.length) :
    (∀ bs, fragmentGo now b mtu = Except.ok bs → 2 ≤ bs.length →
      reassembleFragments now bs = Except.ok
        { primaryBlock := { b.primaryBlock with crc := [] },
          extensionBlocks := b.extensionBlocks, payloadBlock := b.payloadBlock }) ∧
    (data ≠ [] →
      mtu ≤ 2 + (fragmentPrimaryBlock b.primaryBlock 0 data.length).2 +
        (fragmentExtensionBlocksLen b mtu).1 →
      fragmentGo now b mtu = Except.error [111]) := by
  obtain ⟨hp, hextwf, hpaywf, hpt, hnp⟩ := hwf
  obtain ⟨hv7, h64, hc2, hdst, hsrc, hrpt, ht1, ht2, hlf, ho, htd, hfragimp⟩ := hp
  obtain ⟨hoff0, htdl0⟩ := hfragimp hnotfrag
  have hpayn : b.payloadBlock.blockNumber = 1 := by
    have h := hvalid
    simp only [checkValidBundle, Bool.and_eq_true] at h
    have hbcv := h.1.1.1.1.2
    unfold blockCheckValid at hbcv
    rw [if_pos hpt] at hbcv
    simpa using hbcv
  have hpayblock : b.payloadBlock =
      { blockNumber := 1, blockControlFlags := b.payloadBlock.blockControlFlags,
        crcType := b.payloadBlock.crcType, value := BlockValue.payload data } := by
    have hgen : ∀ (cb : CanonicalBlock), cb.value = BlockValue.payload data →
        cb.blockNumber = 1 →
        cb = { blockNumber := 1, blockControlFlags := cb.blockControlFlags, crcType := cb.crcType, value := BlockValue.payload data } := by
      intro cb hx1 hx2
      cases cb
      simp_all
    exact hgen b.payloadBlock hdata hpayn
  constructor
  · intro bs hbs hlen2
    unfold fragmentGo at hbs
    rw [if_neg (by simp [hmnf])] at hbs
    rw [hdata] at hbs
    replace hbs : (match fragLoop b data mtu (fragmentExtensionBlocksLen b mtu).1
        (fragmentExtensionBlocksLen b mtu).2 now 0 (data.length + 1) with
      | .error e => Except.error e
      | .ok bs2 => Except.ok (if bs2.length = 1 then [b] else bs2)) = Except.ok bs := hbs
    cases hloop : fragLoop b data mtu (fragmentExtensionBlocksLen b mtu).1
        (fragmentExtensionBlocksLen b mtu).2 now 0 (data.length + 1) with
    | error e =>
      rw [hloop] at hbs
      exact absurd hbs (by simp)
    | ok frags =>
      rw [hloop] at hbs
      simp only [Except.ok.injEq] at hbs
      by_cases h1 : frags.length = 1
      · rw [if_pos h1] at hbs
        subst hbs
        exact absurd hlen2 (by simp)
      rw [if_neg h1] at hbs
      subst hbs
      by_cases hdpos : 0 < data.length
      swap
      · exfalso
        rw [fragLoop_succ, if_neg (by omega)] at hloop
        simp only [Except.ok.injEq] at hloop
        rw [← hloop] at hlen2
        simp at hlen2
      obtain ⟨⟨rest, hfr⟩, hmem, hpw, hscan, hmerge⟩ :=
        fragLoop_reassembly b data mtu (fragmentExtensionBlocksLen b mtu).1
          (fragmentExtensionBlocksLen b mtu).2 now (data.length + 1) 0 frags hloop hdpos
      have hsort : sortFragments frags = frags := List.Sorted.insertionSort_eq hpw
      have htdlf : (fragAt b data mtu (fragmentExtensionBlocksLen b mtu).1
          (fragmentExtensionBlocksLen b mtu).2 0).primaryBlock.totalDataLength
          = data.length := by
        rw [fragAt_primary]
        rfl
      have hprep := prepareReassembly_eq frags _ rest data.length hfr hsort hscan htdlf
      rw [reassembleFragments_eq now frags _ rest hfr hprep]
      simp only []
      rw [fragAt_primary]
      rw [show ({ (fragmentPrimaryBlock b.primaryBlock 0 data.length).1 with
          bundleControlFlags := clearFlag (fragmentPrimaryBlock b.primaryBlock 0
            data.length).1.bundleControlFlags IsFragment,
          fragmentOffset := 0, totalDataLength := 0, crc := [] } : PrimaryBlock)
        = { b.primaryBlock with crc := [] } from by
          simp [fragmentPrimaryBlock,
            clearFlag_setFlag_isFragment b.primaryBlock.bundleControlFlags h64 hnotfrag,
            hoff0, htdl0]]
      rw [fragAt_ext_zero b data mtu (fragmentExtensionBlocksLen b mtu).1
        (fragmentExtensionBlocksLen b mtu).2 hnp hnum]
      rw [foldl_addExtensionBlock_id b.extensionBlocks
        { primaryBlock := { b.primaryBlock with crc := [] }, extensionBlocks := [],
          payloadBlock := zeroCanonicalBlock } hnp (by simpa using hnum)]
      have hmerge0 : mergePayloadAux frags 0 [] = data := by
        rw [hmerge]
        simp
      rw [hmerge0]
      rw [show (NewCanonicalBlock 1 (fragAt b data mtu (fragmentExtensionBlocksLen b mtu).1
          (fragmentExtensionBlocksLen b mtu).2 0).payloadBlock.blockControlFlags
          (BlockValue.payload data)).setCRCType
          (fragAt b data mtu (fragmentExtensionBlocksLen b mtu).1
            (fragmentExtensionBlocksLen b mtu).2 0).payloadBlock.crcType
        = b.payloadBlock from hpayblock.symm]
      simp only [List.nil_append]
      rw [if_pos (show checkValidBundle now
          { primaryBlock := { b.primaryBlock with crc := [] },
            extensionBlocks := b.extensionBlocks, payloadBlock := b.payloadBlock } = true from by
        rw [checkValid_crc_irrelevant]
        exact hvalid)]
  · intro hne hovmtu
    unfold fragmentGo
    rw [if_neg (by simp [hmnf])]
    rw [hdata]
    have hstep : fragLoop b data mtu (fragmentExtensionBlocksLen b mtu).1
        (fragmentExtensionBlocksLen b mtu).2 now 0 (data.length + 1) = .error [111] := by
      rw [fragLoop_succ]
      rw [if_pos (show 0 < data.length from by
        cases data with
        | nil => exact absurd rfl hne
        | cons a t => simp)]
      rw [if_pos (show mtu ≤ 2 + (fragmentPrimaryBlock b.primaryBlock 0 data.length).2 +
          (if 0 = 0 then (fragmentExtensionBlocksLen b mtu).1
            else (fragmentExtensionBlocksLen b mtu).2) from by simpa using hovmtu)]
    show (match fragLoop b data mtu (fragmentExtensionBlocksLen b mtu).1
        (fragmentExtensionBlocksLen b mtu).2 now 0 (data.length + 1) with
      | .error e => Except.error e
      | .ok bs2 => Except.ok (if bs2.length = 1 then [b] else bs2)) = Except.error [111]
    rw [hstep]

/-- Claim C3, counterexample: at MTU 1000 — far above the per-fragment
overhead, and with the must-not-fragment flag clear — `Fragment` of the
sample bundle yields the single original bundle itself (the `len(bs)==1`
short-circuit), which carries no `IsFragment` flag, so
`ReassembleFragments` rejects it as "bundle is not a fragment" instead of
returning the bundle: the claimed unconditional round trip fails. -/
theorem c3_counterexample :
    hasFlag sampleBundle.primaryBlock.bundleControlFlags MustNotFragmented = false ∧
      2 + (fragmentPrimaryBlock sampleBundle.primaryBlock 0 2).2 +
        (fragmentExtensionBlocksLen sampleBundle 1000).1 < 1000 ∧
      fragmentGo 0 sampleBundle 1000 = Except.ok [sampleBundle] ∧
      reassembleFragments 0 [sampleBundle] = Except.error [110] := by
  decide

/-- Claim C3, witness: at MTU 72 the sample bundle splits into two
fragments which reassemble into the bundle with a cleared primary CRC
field; at MTU 71 the first-fragment overhead reaches the MTU and
`Fragment` fails. -/
theorem c3_fragmentation_witness :
    (fragmentGo 0 sampleBundle 72 =
        Except.ok ((fragmentGo 0 sampleBundle 72).toOption.getD []) ∧
      2 ≤ ((fragmentGo 0 sampleBundle 72).toOption.getD []).length ∧
      reassembleFragments 0 ((fragmentGo 0 sampleBundle 72).toOption.getD []) =
        Except.ok { primaryBlock := { sampleBundle.primaryBlock with crc := [] }, extensionBlocks := sampleBundle.extensionBlocks, payloadBlock := sampleBundle.payloadBlock }) ∧
      fragmentGo 0 sampleBundle 71 = Except.error [111] := by
  refine ⟨⟨by decide, by decide, ?_⟩, ?_⟩
  · exact (c3_fragmentation 0 sampleBundle 72 [104, 105] rfl (by decide) (by decide)
      (by decide) (by decide) (by decide)).1
      ((fragmentGo 0 sampleBundle 72).toOption.getD []) (by decide) (by decide)
  · exact (c3_fragmentation 0 sampleBundle 71 [104, 105] rfl (by decide) (by decide)
      (by decide) (by decide) (by decide)).2 (by decide) (by decide)

end Dtn7
